import Mathlib

/-!
Shallow embedding of `src/initialize.js`: the application initialization
sequencer of the frontend-platform repository.

The sequencer runs a fixed list of phases (pubSub, config, logging, auth,
analytics, i18n, ready), each with a default or caller-overridden async
handler, publishing a completion topic after each phase, with a single
catch block that either swallows redirect-marked errors, or invokes an
error handler and publishes `APP.INIT_ERROR`.

JavaScript values thrown or read from collaborators are modelled by
`JSValue` (with JS truthiness and the fact that property access on
`null`/`undefined` throws a TypeError).  Each collaborator call is
recorded as an `Event`; the behaviour of the external collaborators
(whether each call resolves or rejects, what `getConfig()` and
`getAuthenticatedUser()` return) is an explicit `Env`.  A run of a
handler or of `initialize` produces the list of events it performed and
an `Except JSValue Unit`: `.ok ()` when the async function's promise
resolves, `.error v` when it rejects with the JS value `v`.
-/

/-- A JavaScript value, as far as this module inspects them. -/
inductive JSValue where
  | undef : JSValue
  | null : JSValue
  | bool : Bool → JSValue
  | num : Int → JSValue
  | str : String → JSValue
  | obj : List (String × JSValue) → JSValue

mutual

/-- Decidable equality of `JSValue` (hand-rolled because of the nested list). -/
def JSValue.decEq : (a b : JSValue) → Decidable (a = b)
  | JSValue.undef, JSValue.undef => isTrue rfl
  | JSValue.undef, JSValue.null => isFalse fun h => JSValue.noConfusion h
  | JSValue.undef, JSValue.bool _ => isFalse fun h => JSValue.noConfusion h
  | JSValue.undef, JSValue.num _ => isFalse fun h => JSValue.noConfusion h
  | JSValue.undef, JSValue.str _ => isFalse fun h => JSValue.noConfusion h
  | JSValue.undef, JSValue.obj _ => isFalse fun h => JSValue.noConfusion h
  | JSValue.null, JSValue.undef => isFalse fun h => JSValue.noConfusion h
  | JSValue.null, JSValue.null => isTrue rfl
  | JSValue.null, JSValue.bool _ => isFalse fun h => JSValue.noConfusion h
  | JSValue.null, JSValue.num _ => isFalse fun h => JSValue.noConfusion h
  | JSValue.null, JSValue.str _ => isFalse fun h => JSValue.noConfusion h
  | JSValue.null, JSValue.obj _ => isFalse fun h => JSValue.noConfusion h
  | JSValue.bool _, JSValue.undef => isFalse fun h => JSValue.noConfusion h
  | JSValue.bool _, JSValue.null => isFalse fun h => JSValue.noConfusion h
  | JSValue.bool a, JSValue.bool b =>
      if h : a = b then isTrue (h ▸ rfl) else isFalse fun hh => h (JSValue.bool.inj hh)
  | JSValue.bool _, JSValue.num _ => isFalse fun h => JSValue.noConfusion h
  | JSValue.bool _, JSValue.str _ => isFalse fun h => JSValue.noConfusion h
  | JSValue.bool _, JSValue.obj _ => isFalse fun h => JSValue.noConfusion h
  | JSValue.num _, JSValue.undef => isFalse fun h => JSValue.noConfusion h
  | JSValue.num _, JSValue.null => isFalse fun h => JSValue.noConfusion h
  | JSValue.num _, JSValue.bool _ => isFalse fun h => JSValue.noConfusion h
  | JSValue.num a, JSValue.num b =>
      if h : a = b then isTrue (h ▸ rfl) else isFalse fun hh => h (JSValue.num.inj hh)
  | JSValue.num _, JSValue.str _ => isFalse fun h => JSValue.noConfusion h
  | JSValue.num _, JSValue.obj _ => isFalse fun h => JSValue.noConfusion h
  | JSValue.str _, JSValue.undef => isFalse fun h => JSValue.noConfusion h
  | JSValue.str _, JSValue.null => isFalse fun h => JSValue.noConfusion h
  | JSValue.str _, JSValue.bool _ => isFalse fun h => JSValue.noConfusion h
  | JSValue.str _, JSValue.num _ => isFalse fun h => JSValue.noConfusion h
  | JSValue.str a, JSValue.str b =>
      if h : a = b then isTrue (h ▸ rfl) else isFalse fun hh => h (JSValue.str.inj hh)
  | JSValue.str _, JSValue.obj _ => isFalse fun h => JSValue.noConfusion h
  | JSValue.obj _, JSValue.undef => isFalse fun h => JSValue.noConfusion h
  | JSValue.obj _, JSValue.null => isFalse fun h => JSValue.noConfusion h
  | JSValue.obj _, JSValue.bool _ => isFalse fun h => JSValue.noConfusion h
  | JSValue.obj _, JSValue.num _ => isFalse fun h => JSValue.noConfusion h
  | JSValue.obj _, JSValue.str _ => isFalse fun h => JSValue.noConfusion h
  | JSValue.obj a, JSValue.obj b =>
      match JSValue.decEqFields a b with
      | isTrue h => isTrue (h ▸ rfl)
      | isFalse h => isFalse fun hh => h (JSValue.obj.inj hh)

/-- Decidable equality of `JSValue` field lists. -/
def JSValue.decEqFields : (a b : List (String × JSValue)) → Decidable (a = b)
  | [], [] => isTrue rfl
  | [], _ :: _ => isFalse fun h => List.noConfusion h
  | _ :: _, [] => isFalse fun h => List.noConfusion h
  | (k, v) :: r, (k2, v2) :: r2 =>
      if hk : k = k2 then
        match JSValue.decEq v v2 with
        | isTrue hv =>
          match JSValue.decEqFields r r2 with
          | isTrue hr => isTrue (by rw [hk, hv, hr])
          | isFalse hr => isFalse fun h => hr (by injection h)
        | isFalse hv =>
          isFalse fun h => hv (by
            injection h with h1 h2
            injection h1 with hk1 hv1)
      else
        isFalse fun h => hk (by
          injection h with h1 h2
          injection h1 with hk1 hv1)

end

instance : DecidableEq JSValue := JSValue.decEq

/-- Decidable equality of promise outcomes. -/
def exceptDecEq : (a b : Except JSValue Unit) → Decidable (a = b)
  | Except.ok (), Except.ok () => isTrue rfl
  | Except.ok (), Except.error _ => isFalse fun h => Except.noConfusion h
  | Except.error _, Except.ok () => isFalse fun h => Except.noConfusion h
  | Except.error x, Except.error y =>
      if h : x = y then isTrue (h ▸ rfl) else isFalse fun hh => h (Except.error.inj hh)

instance : DecidableEq (Except JSValue Unit) := exceptDecEq

/-- JS truthiness of a value (`if (v)`). -/
def truthy : JSValue → Bool
  | JSValue.undef => false
  | JSValue.null => false
  | JSValue.bool b => b
  | JSValue.num n => n != 0
  | JSValue.str s => s != ""
  | JSValue.obj _ => true

/-- Whether a value is exactly `null` (the strict `=== null` test). -/
def isNull : JSValue → Bool
  | JSValue.null => true
  | _ => false

/-- Whether property access on the value throws a TypeError
(`null` and `undefined`). -/
def isNullish : JSValue → Bool
  | JSValue.null => true
  | JSValue.undef => true
  | _ => false

/-- Property lookup `v.k` on a value that is not nullish: a missing key,
or a primitive receiver, yields `undefined`. -/
def fieldOf (v : JSValue) (k : String) : JSValue :=
  match v with
  | JSValue.obj fields => (fields.lookup k).getD JSValue.undef
  | _ => JSValue.undef

/-- The model of the TypeError raised by property access on
`null`/`undefined` and by destructuring `undefined`. -/
def typeError : JSValue := JSValue.str "TypeError"

/-- The seven phases of the startup sequence, in their fixed order. -/
inductive Phase where
  | pubSub : Phase
  | config : Phase
  | logging : Phase
  | auth : Phase
  | analytics : Phase
  | i18n : Phase
  | ready : Phase
  deriving DecidableEq

/-- Position of a phase in the fixed order. -/
def phaseIdx : Phase → Nat
  | Phase.pubSub => 0
  | Phase.config => 1
  | Phase.logging => 2
  | Phase.auth => 3
  | Phase.analytics => 4
  | Phase.i18n => 5
  | Phase.ready => 6

/-- The phase that immediately follows a phase, if any. -/
def phaseNext : Phase → Option Phase
  | Phase.pubSub => some Phase.config
  | Phase.config => some Phase.logging
  | Phase.logging => some Phase.auth
  | Phase.auth => some Phase.analytics
  | Phase.analytics => some Phase.i18n
  | Phase.i18n => some Phase.ready
  | Phase.ready => none

/-- The topic prefix `APP_TOPIC` from the source. -/
def APP_TOPIC : String := "APP"

def APP_PUBSUB_INITIALIZED : String := APP_TOPIC ++ ".PUBSUB_INITIALIZED"

def APP_CONFIG_INITIALIZED : String := APP_TOPIC ++ ".CONFIG_INITIALIZED"

def APP_AUTH_INITIALIZED : String := APP_TOPIC ++ ".AUTH_INITIALIZED"

def APP_I18N_INITIALIZED : String := APP_TOPIC ++ ".I18N_INITIALIZED"

def APP_LOGGING_INITIALIZED : String := APP_TOPIC ++ ".LOGGING_INITIALIZED"

def APP_ANALYTICS_INITIALIZED : String := APP_TOPIC ++ ".ANALYTICS_INITIALIZED"

def APP_READY : String := APP_TOPIC ++ ".READY"

def APP_INIT_ERROR : String := APP_TOPIC ++ ".INIT_ERROR"

/-- The completion topic the sequencer publishes after each phase. -/
def completionTopic : Phase → String
  | Phase.pubSub => APP_PUBSUB_INITIALIZED
  | Phase.config => APP_CONFIG_INITIALIZED
  | Phase.logging => APP_LOGGING_INITIALIZED
  | Phase.auth => APP_AUTH_INITIALIZED
  | Phase.analytics => APP_ANALYTICS_INITIALIZED
  | Phase.i18n => APP_I18N_INITIALIZED
  | Phase.ready => APP_READY

/-- Arguments of the `configureAuth` call in the pre-auth wiring
(lines 160-169 of the source). -/
structure AuthConfigArgs where
  loggingService : JSValue
  appBaseUrl : JSValue
  lmsBaseUrl : JSValue
  loginUrl : JSValue
  logoutUrl : JSValue
  refreshAccessTokenEndpoint : JSValue
  accessTokenCookieName : JSValue
  csrfTokenApiPath : JSValue
  deriving DecidableEq

/-- Observable actions of a run: publishes on the event bus, handler
invocations by the sequencer (instrumentation of the `await handlers.X()`
call sites), wiring calls, and the collaborator calls made by the default
handlers. -/
inductive Event where
  | publishE : String → Option JSValue → Event
  | invoke : Phase → Event
  | invokeInitError : JSValue → Event
  | configureLoggingE : JSValue → JSValue → Event
  | configureAuthE : AuthConfigArgs → Event
  | configureAnalyticsE : JSValue → JSValue → JSValue → JSValue → Event
  | configureI18nE : Option JSValue → JSValue → JSValue → Event
  | callEnsureAuthenticatedUser : JSValue → Event
  | callFetchAuthenticatedUser : Event
  | callHydrateAuthenticatedUser : Event
  | callIdentifyAuthenticatedUser : JSValue → Event
  | callIdentifyAnonymousUser : Event
  | callLogError : JSValue → Event
  deriving DecidableEq

/-- Behaviour of the external collaborators during one run: what the
accessors return and whether each collaborator call resolves or throws.
`hydrateAuthenticatedUserResult` is the outcome of the promise returned by
`hydrateAuthenticatedUser()`; the source drops that promise without
awaiting it. -/
structure Env where
  config : JSValue
  locationHref : JSValue
  loggingServiceRef : JSValue
  httpClient : JSValue
  authenticatedUser : JSValue
  ensureAuthenticatedUserResult : Except JSValue Unit
  fetchAuthenticatedUserResult : Except JSValue Unit
  hydrateAuthenticatedUserResult : Except JSValue Unit
  identifyAuthenticatedUserResult : Except JSValue Unit
  identifyAnonymousUserResult : Except JSValue Unit
  logErrorResult : Except JSValue Unit
  configureLoggingResult : Except JSValue Unit
  configureAuthResult : Except JSValue Unit
  configureAnalyticsResult : Except JSValue Unit
  configureI18nResult : Except JSValue Unit

/-- A run of an async unit of work: the events it performed and whether
its promise resolved or rejected. -/
abbrev TraceResult := List Event × Except JSValue Unit

/-- The function `initError` from the source: `async function initError(error) {
logError(error); }` -- it awaits nothing, so a synchronous throw from
`logError` rejects the returned promise. -/
def initError (env : Env) (error : JSValue) : TraceResult :=
  ([Event.callLogError error], env.logErrorResult)

/-- The collaborator call made by the first `await` of the default auth
handler. -/
def authStep1Events (env : Env) (requireUser : JSValue) : List Event :=
  if truthy requireUser then [Event.callEnsureAuthenticatedUser env.locationHref]
  else [Event.callFetchAuthenticatedUser]

/-- The outcome of the first `await` of the default auth handler:
`ensureAuthenticatedUser` when `requireUser` is truthy, else
`fetchAuthenticatedUser`. -/
def authStep1Result (env : Env) (requireUser : JSValue) : Except JSValue Unit :=
  if truthy requireUser then env.ensureAuthenticatedUserResult
  else env.fetchAuthenticatedUserResult

/-- The function `auth` from the source, the default handler of the `auth` phase:
`requireUser` selects `ensureAuthenticatedUser(global.location.href)`
versus `fetchAuthenticatedUser()`; afterwards, if `hydrateUser` is truthy
and `getAuthenticatedUser() !== null`, `hydrateAuthenticatedUser()` is
called without awaiting its promise. -/
def auth (env : Env) (requireUser hydrateUser : JSValue) : TraceResult :=
  match authStep1Result env requireUser with
  | Except.error e => (authStep1Events env requireUser, Except.error e)
  | Except.ok _ =>
    if truthy hydrateUser && !isNull env.authenticatedUser then
      (authStep1Events env requireUser ++ [Event.callHydrateAuthenticatedUser], Except.ok ())
    else
      (authStep1Events env requireUser, Except.ok ())

/-- The function `analytics` from the source, the default handler of the `analytics`
phase: identifies the authenticated user when one is present with a
truthy `userId`, and the anonymous user otherwise. -/
def analytics (env : Env) : TraceResult :=
  let authenticatedUser := env.authenticatedUser
  if truthy authenticatedUser && truthy (fieldOf authenticatedUser "userId") then
    ([Event.callIdentifyAuthenticatedUser (fieldOf authenticatedUser "userId")],
     env.identifyAuthenticatedUserResult)
  else
    ([Event.callIdentifyAnonymousUser], env.identifyAnonymousUserResult)

/-- A phase handler: a default one, or a caller-supplied override.  An
override is opaque: it performs no observable collaborator calls of its
own and either resolves or rejects with some value. -/
inductive Handler where
  | noOp : Handler
  | defaultAuth : Handler
  | defaultAnalytics : Handler
  | defaultInitError : Handler
  | custom : Except JSValue Unit → Handler
  deriving DecidableEq

/-- The caller-supplied partial handler table (`options.handlers`). -/
structure Overrides where
  pubSub : Option Handler := none
  config : Option Handler := none
  logging : Option Handler := none
  auth : Option Handler := none
  analytics : Option Handler := none
  i18n : Option Handler := none
  ready : Option Handler := none
  initError : Option Handler := none
  deriving DecidableEq

/-- The effective handler table of one run. -/
structure Handlers where
  pubSub : Handler
  config : Handler
  logging : Handler
  auth : Handler
  analytics : Handler
  i18n : Handler
  ready : Handler
  initError : Handler
  deriving DecidableEq

/-- The function `applyOverrideHandlers` from the source: the defaults overlaid with
the caller's handlers, replacement per key. -/
def applyOverrideHandlers (overrides : Overrides) : Handlers :=
  { pubSub := overrides.pubSub.getD Handler.noOp
    config := overrides.config.getD Handler.noOp
    logging := overrides.logging.getD Handler.noOp
    auth := overrides.auth.getD Handler.defaultAuth
    analytics := overrides.analytics.getD Handler.defaultAnalytics
    i18n := overrides.i18n.getD Handler.noOp
    ready := overrides.ready.getD Handler.noOp
    initError := overrides.initError.getD Handler.defaultInitError }

/-- Run a handler with two (JS) arguments; phases other than `auth` pass
no arguments, which a JS function observes as `undefined`. -/
def runHandler (env : Env) (h : Handler) (a1 a2 : JSValue) : TraceResult :=
  match h with
  | Handler.noOp => ([], Except.ok ())
  | Handler.custom beh => ([], beh)
  | Handler.defaultAuth => auth env a1 a2
  | Handler.defaultAnalytics => analytics env
  | Handler.defaultInitError => initError env a1

/-- One phase of the sequencer: invoke the handler and, if it resolves,
publish the phase's completion topic. -/
def phaseStep (env : Env) (h : Handler) (ph : Phase) (a1 a2 : JSValue) : TraceResult :=
  match runHandler env h a1 a2 with
  | (evs, Except.ok _) =>
    (Event.invoke ph :: (evs ++ [Event.publishE (completionTopic ph) none]), Except.ok ())
  | (evs, Except.error e) => (Event.invoke ph :: evs, Except.error e)

/-- The pre-logging wiring: `configureLogging(loggingService, { config:
getConfig() })`. -/
def configureLoggingStep (env : Env) (loggingService : JSValue) : TraceResult :=
  ([Event.configureLoggingE loggingService env.config], env.configureLoggingResult)

/-- The pre-auth wiring (lines 160-169): builds the auth configuration
from `getConfig()`.  Property access on a nullish `getConfig()` result
throws; note that both `loginUrl` and `logoutUrl` are read from the
`LOGIN_URL` key. -/
def configureAuthStep (env : Env) : TraceResult :=
  if isNullish env.config then ([], Except.error typeError)
  else
    ([Event.configureAuthE
       { loggingService := env.loggingServiceRef
         appBaseUrl := fieldOf env.config "BASE_URL"
         lmsBaseUrl := fieldOf env.config "LMS_BASE_URL"
         loginUrl := fieldOf env.config "LOGIN_URL"
         logoutUrl := fieldOf env.config "LOGIN_URL"
         refreshAccessTokenEndpoint := fieldOf env.config "REFRESH_ACCESS_TOKEN_ENDPOINT"
         accessTokenCookieName := fieldOf env.config "ACCESS_TOKEN_COOKIE_NAME"
         csrfTokenApiPath := fieldOf env.config "CSRF_TOKEN_API_PATH" }],
     env.configureAuthResult)

/-- The pre-analytics wiring: `configureAnalytics(analyticsService,
{ config, loggingService, httpClient })`. -/
def configureAnalyticsStep (env : Env) (analyticsService : JSValue) : TraceResult :=
  ([Event.configureAnalyticsE analyticsService env.config env.loggingServiceRef env.httpClient],
   env.configureAnalyticsResult)

/-- The pre-i18n wiring: `configureI18n({ messages, config,
loggingService })`. -/
def configureI18nStep (env : Env) (messages : Option JSValue) : TraceResult :=
  ([Event.configureI18nE messages env.config env.loggingServiceRef],
   env.configureI18nResult)

/-- Sequential composition of two async steps: the second runs only when
the first resolves; a rejection propagates. -/
def seqT (a b : TraceResult) : TraceResult :=
  match a with
  | (evs, Except.ok _) => (evs ++ b.1, b.2)
  | (evs, Except.error e) => (evs, Except.error e)

/-- The body of the `try` block of `initialize` (lines 143-193): the
seven phases in their fixed order with the wiring interleaved exactly as
in the source. -/
def tryBody (env : Env) (hs : Handlers) (loggingService analyticsService : JSValue)
    (requireUser hydrateUser : JSValue) (messages : Option JSValue) : TraceResult :=
  seqT (phaseStep env hs.pubSub Phase.pubSub JSValue.undef JSValue.undef) <|
  seqT (phaseStep env hs.config Phase.config JSValue.undef JSValue.undef) <|
  seqT (configureLoggingStep env loggingService) <|
  seqT (phaseStep env hs.logging Phase.logging JSValue.undef JSValue.undef) <|
  seqT (configureAuthStep env) <|
  seqT (phaseStep env hs.auth Phase.auth requireUser hydrateUser) <|
  seqT (configureAnalyticsStep env analyticsService) <|
  seqT (phaseStep env hs.analytics Phase.analytics JSValue.undef JSValue.undef) <|
  seqT (configureI18nStep env messages) <|
  seqT (phaseStep env hs.i18n Phase.i18n JSValue.undef JSValue.undef)
       (phaseStep env hs.ready Phase.ready JSValue.undef JSValue.undef)

/-- The default logging service selector (`NewRelicLoggingService`). -/
def NewRelicLoggingService : JSValue := JSValue.str "NewRelicLoggingService"

/-- The default analytics service selector (`SegmentAnalyticsService`). -/
def SegmentAnalyticsService : JSValue := JSValue.str "SegmentAnalyticsService"

/-- The options record of `initialize`; a `none` field is an absent
property, which the source's destructuring replaces by the default. -/
structure InitOptions where
  loggingService : Option JSValue := none
  analyticsService : Option JSValue := none
  requireAuthenticatedUser : Option JSValue := none
  hydrateAuthenticatedUser : Option JSValue := none
  messages : Option JSValue := none
  handlers : Option Overrides := none

/-- The effective handler table resolved from the options. -/
def effHandlers (opts : InitOptions) : Handlers :=
  applyOverrideHandlers (opts.handlers.getD {})

/-- The resolved `requireAuthenticatedUser` option, defaulted to `false`. -/
def requireUserOf (opts : InitOptions) : JSValue :=
  opts.requireAuthenticatedUser.getD (JSValue.bool false)

/-- The resolved `hydrateAuthenticatedUser` option, defaulted to `false`. -/
def hydrateUserOf (opts : InitOptions) : JSValue :=
  opts.hydrateAuthenticatedUser.getD (JSValue.bool false)

/-- The `try` body of `initialize` after option resolution. -/
def bodyOf (opts : InitOptions) (env : Env) : TraceResult :=
  tryBody env (effHandlers opts)
    (opts.loggingService.getD NewRelicLoggingService)
    (opts.analyticsService.getD SegmentAnalyticsService)
    (requireUserOf opts) (hydrateUserOf opts) opts.messages

/-- The function `initialize` from the source.  Calling it without an options record
rejects with a TypeError raised while destructuring the parameter, before
anything runs.  Otherwise the try body runs; a rejection is caught and:
if the thrown value is nullish, the catch block's own `error.isRedirecting`
access throws (so `initialize` rejects with that TypeError); if the
redirect marker is truthy the rejection is swallowed silently; otherwise
the error handler is awaited and then `APP.INIT_ERROR` is published with
the error as payload.  A rejection of the error handler itself escapes
the sequencer.  (Named `initializeApp` because the source's name
`initialize` is a reserved word in Lean.) -/
def initializeApp (options : Option InitOptions) (env : Env) : TraceResult :=
  match options with
  | none => ([], Except.error typeError)
  | some opts =>
    match bodyOf opts env with
    | (evs, Except.ok _) => (evs, Except.ok ())
    | (evs, Except.error e) =>
      if isNullish e then
        (evs, Except.error typeError)
      else if truthy (fieldOf e "isRedirecting") then
        (evs, Except.ok ())
      else
        match runHandler env (effHandlers opts).initError e JSValue.undef with
        | (ievs, Except.ok _) =>
          (evs ++ Event.invokeInitError e ::
            (ievs ++ [Event.publishE APP_INIT_ERROR (some e)]), Except.ok ())
        | (ievs, Except.error e2) =>
          (evs ++ Event.invokeInitError e :: ievs, Except.error e2)

/-- The topics published in a trace, in order. -/
def publishedTopics (evs : List Event) : List String :=
  evs.filterMap fun e =>
    match e with
    | Event.publishE t _ => some t
    | _ => none

/-- The seven phases in order. -/
def allPhases : List Phase :=
  [Phase.pubSub, Phase.config, Phase.logging, Phase.auth,
   Phase.analytics, Phase.i18n, Phase.ready]

/-- The seven completion topics in their required order. -/
def allTopics : List String := allPhases.map completionTopic

/-- A concrete collaborator behaviour in which every call resolves, the
configuration is a fully populated object (note: its `LOGOUT_URL` differs
from its `LOGIN_URL`), and an authenticated user with `userId` 42 is
present. -/
def envOk : Env :=
  { config := JSValue.obj
      [("BASE_URL", JSValue.str "http://app"),
       ("LMS_BASE_URL", JSValue.str "http://lms"),
       ("LOGIN_URL", JSValue.str "http://login"),
       ("LOGOUT_URL", JSValue.str "http://logout"),
       ("REFRESH_ACCESS_TOKEN_ENDPOINT", JSValue.str "http://refresh"),
       ("ACCESS_TOKEN_COOKIE_NAME", JSValue.str "cookie"),
       ("CSRF_TOKEN_API_PATH", JSValue.str "/csrf")]
    locationHref := JSValue.str "http://app/page"
    loggingServiceRef := JSValue.str "loggingServiceInstance"
    httpClient := JSValue.str "httpClientInstance"
    authenticatedUser := JSValue.obj [("userId", JSValue.num 42)]
    ensureAuthenticatedUserResult := Except.ok ()
    fetchAuthenticatedUserResult := Except.ok ()
    hydrateAuthenticatedUserResult := Except.ok ()
    identifyAuthenticatedUserResult := Except.ok ()
    identifyAnonymousUserResult := Except.ok ()
    logErrorResult := Except.ok ()
    configureLoggingResult := Except.ok ()
    configureAuthResult := Except.ok ()
    configureAnalyticsResult := Except.ok ()
    configureI18nResult := Except.ok () }

/-! Infrastructure: events emitted by handlers and wiring are "quiet" --
they are neither publishes nor handler invocations. -/

/-- Whether an event is neither a publish nor a handler invocation. -/
def quietEvent : Event → Bool
  | Event.publishE _ _ => false
  | Event.invoke _ => false
  | Event.invokeInitError _ => false
  | _ => true

/-- Whether an event is one of the collaborator calls a default handler
can make. -/
def isCallEvent : Event → Bool
  | Event.callEnsureAuthenticatedUser _ => true
  | Event.callFetchAuthenticatedUser => true
  | Event.callHydrateAuthenticatedUser => true
  | Event.callIdentifyAuthenticatedUser _ => true
  | Event.callIdentifyAnonymousUser => true
  | Event.callLogError _ => true
  | _ => false

lemma quiet_of_call (ev : Event) (h : isCallEvent ev = true) : quietEvent ev = true := by
  cases ev <;> first | rfl | exact absurd h (by simp [isCallEvent])

lemma authStep1Events_calls (env : Env) (ru : JSValue) :
    ∀ ev ∈ authStep1Events env ru, isCallEvent ev = true := by
  unfold authStep1Events
  split <;> simp [isCallEvent]

lemma runHandler_calls (env : Env) (h : Handler) (a1 a2 : JSValue) :
    ∀ ev ∈ (runHandler env h a1 a2).1, isCallEvent ev = true := by
  cases h with
  | noOp => simp [runHandler]
  | custom beh => simp [runHandler]
  | defaultInitError => simp [runHandler, initError, isCallEvent]
  | defaultAnalytics =>
    intro ev hev
    unfold runHandler analytics at hev
    cases hh : (truthy env.authenticatedUser && truthy (fieldOf env.authenticatedUser "userId")) <;>
      simp [hh] at hev <;> subst hev <;> rfl
  | defaultAuth =>
    intro ev hev
    unfold runHandler auth at hev
    rcases h1 : authStep1Result env a1 with e | u <;> simp only [h1] at hev
    · exact authStep1Events_calls env a1 ev hev
    · cases hh : (truthy a2 && !isNull env.authenticatedUser) <;> simp only [hh] at hev
      · simp only [Bool.false_eq_true, if_false] at hev
        exact authStep1Events_calls env a1 ev hev
      · simp only [if_true] at hev
        rcases List.mem_append.mp hev with hcase | hcase
        · exact authStep1Events_calls env a1 ev hcase
        · simp only [List.mem_singleton] at hcase; subst hcase; rfl

lemma runHandler_quiet (env : Env) (h : Handler) (a1 a2 : JSValue) :
    ∀ ev ∈ (runHandler env h a1 a2).1, quietEvent ev = true :=
  fun ev hev => quiet_of_call ev (runHandler_calls env h a1 a2 ev hev)

lemma seqT_ok_left (a b : TraceResult) (h : a.2 = Except.ok ()) :
    seqT a b = (a.1 ++ b.1, b.2) := by
  rcases a with ⟨evs, r⟩
  cases r with
  | ok u => rfl
  | error e => exact Except.noConfusion h

lemma seqT_err_left (a b : TraceResult) (e : JSValue) (h : a.2 = Except.error e) :
    seqT a b = (a.1, Except.error e) := by
  rcases a with ⟨evs, r⟩
  cases r with
  | ok u => exact Except.noConfusion h
  | error e2 =>
    have h1 : e2 = e := by injection h
    subst h1; rfl

lemma publishedTopics_nil : publishedTopics [] = [] := rfl

lemma publishedTopics_append (a b : List Event) :
    publishedTopics (a ++ b) = publishedTopics a ++ publishedTopics b := by
  simp [publishedTopics]

lemma publishedTopics_cons_publish (t : String) (p : Option JSValue) (l : List Event) :
    publishedTopics (Event.publishE t p :: l) = t :: publishedTopics l := rfl

lemma publishedTopics_cons_invoke (P : Phase) (l : List Event) :
    publishedTopics (Event.invoke P :: l) = publishedTopics l := rfl

lemma publishedTopics_cons_invokeInitError (v : JSValue) (l : List Event) :
    publishedTopics (Event.invokeInitError v :: l) = publishedTopics l := rfl

lemma publishedTopics_quiet (l : List Event) (hq : ∀ ev ∈ l, quietEvent ev = true) :
    publishedTopics l = [] := by
  induction l with
  | nil => rfl
  | cons e rest ih =>
    have he := hq e (List.mem_cons_self e rest)
    have hrest : ∀ ev ∈ rest, quietEvent ev = true := fun ev hev => hq ev (List.mem_cons_of_mem e hev)
    cases e <;> simp [quietEvent] at he <;>
      simpa [publishedTopics, List.filterMap_cons] using ih hrest

lemma handler_published (env : Env) (h : Handler) (a1 a2 : JSValue) :
    publishedTopics (runHandler env h a1 a2).1 = [] :=
  publishedTopics_quiet _ (runHandler_quiet env h a1 a2)

lemma invoke_not_mem_quiet (l : List Event) (hq : ∀ ev ∈ l, quietEvent ev = true)
    (P : Phase) : Event.invoke P ∉ l := by
  intro hmem
  have := hq _ hmem
  simp [quietEvent] at this

lemma invokeInitError_not_mem_quiet (l : List Event)
    (hq : ∀ ev ∈ l, quietEvent ev = true) (v : JSValue) : Event.invokeInitError v ∉ l := by
  intro hmem
  have := hq _ hmem
  simp [quietEvent] at this

lemma publish_not_mem_quiet (l : List Event) (hq : ∀ ev ∈ l, quietEvent ev = true)
    (t : String) (p : Option JSValue) : Event.publishE t p ∉ l := by
  intro hmem
  have := hq _ hmem
  simp [quietEvent] at this

/-! Abstract sequencing layer: the try body is a list of steps (phase
steps with the wiring interleaved) run in order until the first
rejection.  The claims are proved by induction over such step lists and
then instantiated with the concrete list of `tryBody`. -/

/-- One step of the try body: a wiring call, or a phase (with the trace
and outcome its handler would produce). -/
inductive Step where
  | wiring : List Event → Except JSValue Unit → Step
  | phase : Phase → List Event → Except JSValue Unit → Step

/-- Execute one step. -/
def runStep : Step → TraceResult
  | Step.wiring tr res => (tr, res)
  | Step.phase P hevs hres =>
    match hres with
    | Except.ok _ =>
      (Event.invoke P :: (hevs ++ [Event.publishE (completionTopic P) none]), Except.ok ())
    | Except.error e => (Event.invoke P :: hevs, Except.error e)

/-- Execute a list of steps in order, stopping at the first rejection. -/
def runSteps : List Step → TraceResult
  | [] => ([], Except.ok ())
  | s :: rest => seqT (runStep s) (runSteps rest)

/-- The phases of a step list, in order. -/
def phasesOf : List Step → List Phase
  | [] => []
  | Step.wiring _ _ :: r => phasesOf r
  | Step.phase P _ _ :: r => P :: phasesOf r

/-- The completion topics a step list publishes: those of the phases
completed before the first rejection. -/
def stepsPublished : List Step → List String
  | [] => []
  | Step.wiring _ res :: r =>
    match res with
    | Except.ok _ => stepsPublished r
    | Except.error _ => []
  | Step.phase P _ hres :: r =>
    match hres with
    | Except.ok _ => completionTopic P :: stepsPublished r
    | Except.error _ => []

/-- The phases whose handler a step list invokes: those reached before
the first rejection (a phase whose own handler rejects is still
invoked). -/
def stepsInvoked : List Step → List Phase
  | [] => []
  | Step.wiring _ res :: r =>
    match res with
    | Except.ok _ => stepsInvoked r
    | Except.error _ => []
  | Step.phase P _ hres :: r =>
    match hres with
    | Except.ok _ => P :: stepsInvoked r
    | Except.error _ => [P]

/-- A step whose own trace is quiet. -/
def quietStep : Step → Prop
  | Step.wiring tr _ => ∀ ev ∈ tr, quietEvent ev = true
  | Step.phase _ hevs _ => ∀ ev ∈ hevs, quietEvent ev = true

/-- The outcome of a step's own work. -/
def stepRes : Step → Except JSValue Unit
  | Step.wiring _ res => res
  | Step.phase _ _ hres => hres

lemma runStep_snd (s : Step) : (runStep s).2 = stepRes s := by
  cases s with
  | wiring tr res => rfl
  | phase P hevs hres =>
    cases hres with
    | ok u => cases u; rfl
    | error e => rfl

lemma runSteps_published (l : List Step) (hq : ∀ s ∈ l, quietStep s) :
    publishedTopics (runSteps l).1 = stepsPublished l := by
  induction l with
  | nil => rfl
  | cons s rest ih =>
    have hqs : quietStep s := hq s (List.mem_cons_self s rest)
    have hqr : ∀ t ∈ rest, quietStep t := fun t ht => hq t (List.mem_cons_of_mem s ht)
    cases s with
    | wiring tr res =>
      cases res with
      | ok u =>
        cases u
        show publishedTopics (seqT (tr, Except.ok ()) (runSteps rest)).1 = stepsPublished rest
        rw [seqT_ok_left _ _ rfl]
        show publishedTopics (tr ++ (runSteps rest).1) = _
        rw [publishedTopics_append, publishedTopics_quiet tr hqs, ih hqr]
        rfl
      | error e =>
        show publishedTopics (seqT (tr, Except.error e) (runSteps rest)).1 = []
        rw [seqT_err_left _ _ e rfl]
        exact publishedTopics_quiet tr hqs
    | phase P hevs hres =>
      cases hres with
      | ok u =>
        cases u
        show publishedTopics (seqT
          (Event.invoke P :: (hevs ++ [Event.publishE (completionTopic P) none]), Except.ok ())
          (runSteps rest)).1 = completionTopic P :: stepsPublished rest
        rw [seqT_ok_left _ _ rfl]
        show publishedTopics ((Event.invoke P ::
          (hevs ++ [Event.publishE (completionTopic P) none])) ++ (runSteps rest).1) = _
        rw [List.cons_append, List.append_assoc, publishedTopics_cons_invoke,
          publishedTopics_append, publishedTopics_quiet hevs hqs,
          List.singleton_append, publishedTopics_cons_publish, ih hqr]
        rfl
      | error e =>
        show publishedTopics (seqT (Event.invoke P :: hevs, Except.error e) (runSteps rest)).1 = []
        rw [seqT_err_left _ _ e rfl]
        show publishedTopics (Event.invoke P :: hevs) = []
        rw [publishedTopics_cons_invoke]
        exact publishedTopics_quiet hevs hqs

lemma runSteps_invoke (l : List Step) (hq : ∀ s ∈ l, quietStep s) (P : Phase) :
    Event.invoke P ∈ (runSteps l).1 ↔ P ∈ stepsInvoked l := by
  induction l with
  | nil => simp [runSteps, stepsInvoked]
  | cons s rest ih =>
    have hqs : quietStep s := hq s (List.mem_cons_self s rest)
    have hqr : ∀ t ∈ rest, quietStep t := fun t ht => hq t (List.mem_cons_of_mem s ht)
    have hnot : Event.invoke P ∉ (match s with
      | Step.wiring tr _ => tr
      | Step.phase _ hevs _ => hevs) := by
      cases s with
      | wiring tr res => exact invoke_not_mem_quiet tr hqs P
      | phase Q hevs hres => exact invoke_not_mem_quiet hevs hqs P
    cases s with
    | wiring tr res =>
      cases res with
      | ok u =>
        cases u
        rw [show runSteps (Step.wiring tr (Except.ok ()) :: rest) =
              seqT (runStep (Step.wiring tr (Except.ok ()))) (runSteps rest) from rfl,
            seqT_ok_left _ _ rfl]
        show Event.invoke P ∈ tr ++ (runSteps rest).1 ↔ _
        rw [show stepsInvoked (Step.wiring tr (Except.ok ()) :: rest) = stepsInvoked rest from rfl]
        simp only [List.mem_append]
        constructor
        · rintro (hmem | hmem)
          · exact absurd hmem hnot
          · exact (ih hqr).mp hmem
        · intro hmem; exact Or.inr ((ih hqr).mpr hmem)
      | error e =>
        rw [show runSteps (Step.wiring tr (Except.error e) :: rest) =
              seqT (runStep (Step.wiring tr (Except.error e))) (runSteps rest) from rfl,
            seqT_err_left _ _ e rfl]
        show Event.invoke P ∈ tr ↔ _
        rw [show stepsInvoked (Step.wiring tr (Except.error e) :: rest) = [] from rfl]
        simp only [List.not_mem_nil, iff_false]
        exact hnot
    | phase Q hevs hres =>
      cases hres with
      | ok u =>
        cases u
        rw [show runSteps (Step.phase Q hevs (Except.ok ()) :: rest) =
              seqT (runStep (Step.phase Q hevs (Except.ok ()))) (runSteps rest) from rfl,
            seqT_ok_left _ _ rfl]
        show Event.invoke P ∈ (Event.invoke Q ::
          (hevs ++ [Event.publishE (completionTopic Q) none])) ++ (runSteps rest).1 ↔ _
        rw [show stepsInvoked (Step.phase Q hevs (Except.ok ()) :: rest) =
              Q :: stepsInvoked rest from rfl]
        simp only [List.cons_append, List.mem_cons, List.mem_append, Event.invoke.injEq,
          List.mem_singleton]
        constructor
        · rintro (hPQ | (hmem | hmem) | hmem)
          · exact Or.inl hPQ
          · exact absurd hmem hnot
          · exact absurd hmem (by simp)
          · exact Or.inr ((ih hqr).mp hmem)
        · rintro (hPQ | hmem)
          · exact Or.inl hPQ
          · exact Or.inr (Or.inr ((ih hqr).mpr hmem))
      | error e =>
        rw [show runSteps (Step.phase Q hevs (Except.error e) :: rest) =
              seqT (runStep (Step.phase Q hevs (Except.error e))) (runSteps rest) from rfl,
            seqT_err_left _ _ e rfl]
        show Event.invoke P ∈ Event.invoke Q :: hevs ↔ _
        rw [show stepsInvoked (Step.phase Q hevs (Except.error e) :: rest) = [Q] from rfl]
        simp only [List.mem_cons, Event.invoke.injEq, List.mem_singleton, List.not_mem_nil,
          or_false]
        constructor
        · rintro (hPQ | hmem)
          · exact hPQ
          · exact absurd hmem hnot
        · intro hPQ; exact Or.inl hPQ

lemma runSteps_no_invokeInitError (l : List Step) (v : JSValue) :
    (∀ s ∈ l, quietStep s) → Event.invokeInitError v ∉ (runSteps l).1 := by
  induction l with
  | nil => intro _; simp [runSteps]
  | cons s rest ih =>
    intro hq
    have hqs : quietStep s := hq s (List.mem_cons_self s rest)
    have hqr : ∀ t ∈ rest, quietStep t := fun t ht => hq t (List.mem_cons_of_mem s ht)
    have hnot : ∀ tr : List Event, (∀ ev ∈ tr, quietEvent ev = true) →
        Event.invokeInitError v ∉ tr := fun tr h => invokeInitError_not_mem_quiet tr h v
    intro hmem
    cases s with
    | wiring tr res =>
      cases res with
      | ok u =>
        cases u
        rw [show runSteps (Step.wiring tr (Except.ok ()) :: rest) =
              seqT (tr, Except.ok ()) (runSteps rest) from rfl, seqT_ok_left _ _ rfl] at hmem
        rcases List.mem_append.mp hmem with hc | hc
        · exact hnot tr hqs hc
        · exact ih hqr hc
      | error e =>
        rw [show runSteps (Step.wiring tr (Except.error e) :: rest) =
              seqT (tr, Except.error e) (runSteps rest) from rfl, seqT_err_left _ _ e rfl] at hmem
        exact hnot tr hqs hmem
    | phase P hevs hres =>
      cases hres with
      | ok u =>
        cases u
        rw [show runSteps (Step.phase P hevs (Except.ok ()) :: rest) =
              seqT (Event.invoke P :: (hevs ++ [Event.publishE (completionTopic P) none]),
                Except.ok ()) (runSteps rest) from rfl, seqT_ok_left _ _ rfl] at hmem
        rcases List.mem_cons.mp hmem with hc | hc
        · exact Event.noConfusion hc
        · rcases List.mem_append.mp hc with hc2 | hc2
          · rcases List.mem_append.mp hc2 with hc3 | hc3
            · exact hnot hevs hqs hc3
            · simp at hc3
          · exact ih hqr hc2
      | error e =>
        rw [show runSteps (Step.phase P hevs (Except.error e) :: rest) =
              seqT (Event.invoke P :: hevs, Except.error e) (runSteps rest) from rfl,
            seqT_err_left _ _ e rfl] at hmem
        rcases List.mem_cons.mp hmem with hc | hc
        · exact Event.noConfusion hc
        · exact hnot hevs hqs hc

lemma runSteps_ok (l : List Step) :
    (runSteps l).2 = Except.ok () ↔ ∀ s ∈ l, stepRes s = Except.ok () := by
  induction l with
  | nil => simp [runSteps]
  | cons s rest ih =>
    rw [show runSteps (s :: rest) = seqT (runStep s) (runSteps rest) from rfl]
    rcases hres : stepRes s with e | u
    · have h2 : (runStep s).2 = Except.error e := by rw [runStep_snd, hres]
      rw [seqT_err_left _ _ e h2]
      constructor
      · intro h; exact Except.noConfusion h
      · intro h
        have hcontra := h s (List.mem_cons_self s rest)
        rw [hres] at hcontra
        exact Except.noConfusion hcontra
    · cases u
      have h2 : (runStep s).2 = Except.ok () := by rw [runStep_snd, hres]
      rw [seqT_ok_left _ _ h2]
      show (runSteps rest).2 = Except.ok () ↔ _
      rw [ih]
      simp [List.forall_mem_cons, hres]

lemma stepsPublished_of_ok (l : List Step) :
    (∀ s ∈ l, stepRes s = Except.ok ()) →
      stepsPublished l = (phasesOf l).map completionTopic ∧ stepsInvoked l = phasesOf l := by
  induction l with
  | nil => intro _; exact ⟨rfl, rfl⟩
  | cons s rest ih =>
    intro h
    have hs : stepRes s = Except.ok () := h s (List.mem_cons_self s rest)
    have hr : ∀ t ∈ rest, stepRes t = Except.ok () := fun t ht => h t (List.mem_cons_of_mem s ht)
    obtain ⟨ih1, ih2⟩ := ih hr
    cases s with
    | wiring tr res =>
      have hres : res = Except.ok () := hs
      subst hres
      exact ⟨ih1, ih2⟩
    | phase P hevs hres =>
      have hres2 : hres = Except.ok () := hs
      subst hres2
      constructor
      · show completionTopic P :: stepsPublished rest = _
        rw [ih1]; rfl
      · show P :: stepsInvoked rest = _
        rw [ih2]; rfl

lemma stepsPublished_take (l : List Step) :
    ∃ k, k ≤ (phasesOf l).length ∧
      stepsPublished l = ((phasesOf l).map completionTopic).take k := by
  induction l with
  | nil => exact ⟨0, Nat.le_refl 0, rfl⟩
  | cons s rest ih =>
    obtain ⟨k, hk, hpub⟩ := ih
    cases s with
    | wiring tr res =>
      cases res with
      | ok u => cases u; exact ⟨k, hk, hpub⟩
      | error e => exact ⟨0, Nat.zero_le _, rfl⟩
    | phase P hevs hres =>
      cases hres with
      | ok u =>
        cases u
        refine ⟨k + 1, ?_, ?_⟩
        · show k + 1 ≤ (P :: phasesOf rest).length
          simpa using Nat.succ_le_succ hk
        · show completionTopic P :: stepsPublished rest = _
          rw [hpub]; rfl
      | error e => exact ⟨0, Nat.zero_le _, rfl⟩

/-- Whether a step is a phase step. -/
def isPhaseStep : Step → Bool
  | Step.phase _ _ _ => true
  | Step.wiring _ _ => false

lemma phasesOf_ne_nil (l : List Step) :
    (∃ s, l.getLast? = some s ∧ isPhaseStep s = true) → phasesOf l ≠ [] := by
  induction l with
  | nil => rintro ⟨s, hs, _⟩; simp at hs
  | cons a rest ih =>
    rintro ⟨s, hs, hps⟩
    cases rest with
    | nil =>
      rw [List.getLast?_singleton] at hs
      have ha : a = s := by injection hs
      subst ha
      cases a with
      | wiring tr res => exact absurd hps (by simp [isPhaseStep])
      | phase P hevs hres => simp [phasesOf]
    | cons b rest2 =>
      rw [List.getLast?_cons_cons] at hs
      have hrec := ih ⟨s, hs, hps⟩
      cases a with
      | wiring tr res => exact hrec
      | phase P hevs hres => simp [phasesOf]

lemma stepsPublished_ne_of_err (l : List Step) (e : JSValue) :
    (runSteps l).2 = Except.error e →
    (∃ s, l.getLast? = some s ∧ isPhaseStep s = true) →
    stepsPublished l ≠ (phasesOf l).map completionTopic := by
  induction l with
  | nil => intro he _; exact Except.noConfusion he
  | cons s rest ih =>
    intro he hlast
    rcases hres : stepRes s with e2 | u
    · cases s with
      | wiring tr res =>
        have hres2 : res = Except.error e2 := hres
        subst hres2
        cases rest with
        | nil =>
          obtain ⟨s2, hs2, hps⟩ := hlast
          rw [List.getLast?_singleton] at hs2
          have : Step.wiring tr (Except.error e2) = s2 := by injection hs2
          subst this
          exact absurd hps (by simp [isPhaseStep])
        | cons b rest2 =>
          obtain ⟨s2, hs2, hps⟩ := hlast
          rw [List.getLast?_cons_cons] at hs2
          have hne := phasesOf_ne_nil (b :: rest2) ⟨s2, hs2, hps⟩
          show ([] : List String) ≠ (phasesOf (b :: rest2)).map completionTopic
          intro hcontra
          exact hne (List.map_eq_nil_iff.mp hcontra.symm)
      | phase P hevs hres3 =>
        have hres2 : hres3 = Except.error e2 := hres
        subst hres2
        show ([] : List String) ≠ completionTopic P :: (phasesOf rest).map completionTopic
        simp
    · cases u
      have h2 : (runStep s).2 = Except.ok () := by rw [runStep_snd, hres]
      have he2 : (runSteps rest).2 = Except.error e := by
        rw [show runSteps (s :: rest) = seqT (runStep s) (runSteps rest) from rfl,
          seqT_ok_left _ _ h2] at he
        exact he
      cases rest with
      | nil => exact Except.noConfusion he2
      | cons b rest2 =>
        obtain ⟨s2, hs2, hps⟩ := hlast
        rw [List.getLast?_cons_cons] at hs2
        have ihh := ih he2 ⟨s2, hs2, hps⟩
        cases s with
        | wiring tr res =>
          have hres2 : res = Except.ok () := hres
          subst hres2
          exact ihh
        | phase P hevs hres3 =>
          have hres2 : hres3 = Except.ok () := hres
          subst hres2
          show completionTopic P :: stepsPublished (b :: rest2) ≠
            completionTopic P :: (phasesOf (b :: rest2)).map completionTopic
          intro hcontra
          exact ihh (by injection hcontra)

lemma completionTopic_injective (P Q : Phase) (h : completionTopic P = completionTopic Q) :
    P = Q := by
  cases P <;> cases Q <;> first | rfl | exact absurd h (by decide)

lemma mem_phasesOf (l : List Step) (P : Phase) (hevs : List Event)
    (hres : Except JSValue Unit) :
    Step.phase P hevs hres ∈ l → P ∈ phasesOf l := by
  induction l with
  | nil => intro h; simp at h
  | cons s rest ih =>
    intro h
    rcases List.mem_cons.mp h with heq | hmem
    · rw [← heq]
      show P ∈ P :: phasesOf rest
      exact List.mem_cons_self P (phasesOf rest)
    · cases s with
      | wiring tr res => exact ih hmem
      | phase Q qevs qres => exact List.mem_cons_of_mem Q (ih hmem)

lemma stepsInvoked_subset (l : List Step) (P : Phase) :
    P ∈ stepsInvoked l → P ∈ phasesOf l := by
  induction l with
  | nil => intro h; simp [stepsInvoked] at h
  | cons s rest ih =>
    intro h
    cases s with
    | wiring tr res =>
      cases res with
      | ok u => cases u; exact ih h
      | error e => exact absurd h (by simp [stepsInvoked])
    | phase Q qevs qres =>
      cases qres with
      | ok u =>
        cases u
        rcases List.mem_cons.mp h with heq | hmem
        · rw [heq]; exact List.mem_cons_self Q (phasesOf rest)
        · exact List.mem_cons_of_mem Q (ih hmem)
      | error e =>
        have hPQ : P = Q := by simpa [stepsInvoked] using h
        rw [hPQ]
        exact List.mem_cons_self Q (phasesOf rest)

lemma runSteps_char (l : List Step) (P : Phase) (hevs : List Event)
    (hres : Except JSValue Unit) :
    (phasesOf l).Nodup → Step.phase P hevs hres ∈ l →
      (completionTopic P ∈ stepsPublished l ↔
        P ∈ stepsInvoked l ∧ hres = Except.ok ()) := by
  induction l with
  | nil => intro _ hmem; simp at hmem
  | cons s rest ih =>
    intro hnd hmem
    rcases List.mem_cons.mp hmem with heq | hmem2
    · rw [← heq] at hnd ⊢
      cases hres with
      | ok u =>
        cases u
        constructor
        · intro _
          exact ⟨List.mem_cons_self P (stepsInvoked rest), rfl⟩
        · intro _
          show completionTopic P ∈ completionTopic P :: stepsPublished rest
          exact List.mem_cons_self _ _
      | error e =>
        constructor
        · intro hc; exact absurd hc (by simp [stepsPublished])
        · rintro ⟨_, hok⟩; exact Except.noConfusion hok
    · have hPrest : P ∈ phasesOf rest := mem_phasesOf rest P hevs hres hmem2
      cases s with
      | wiring tr res =>
        have hnd2 : (phasesOf rest).Nodup := by simpa [phasesOf] using hnd
        cases res with
        | ok u => cases u; exact ih hnd2 hmem2
        | error e =>
          constructor
          · intro hc; exact absurd hc (by simp [stepsPublished])
          · rintro ⟨hinv, _⟩; exact absurd hinv (by simp [stepsInvoked])
      | phase Q qevs qres =>
        have hndc := List.nodup_cons.mp (show (Q :: phasesOf rest).Nodup by
          simpa [phasesOf] using hnd)
        have hPQ : P ≠ Q := fun hc => hndc.1 (hc ▸ hPrest)
        cases qres with
        | ok u =>
          cases u
          have ihh := ih hndc.2 hmem2
          constructor
          · intro hc
            rcases List.mem_cons.mp hc with hceq | hcmem
            · exact absurd (completionTopic_injective P Q hceq) hPQ
            · obtain ⟨hi, ho⟩ := ihh.mp hcmem
              exact ⟨List.mem_cons_of_mem Q hi, ho⟩
          · rintro ⟨hi, ho⟩
            rcases List.mem_cons.mp hi with hieq | himem
            · exact absurd hieq hPQ
            · exact List.mem_cons_of_mem _ (ihh.mpr ⟨himem, ho⟩)
        | error e =>
          constructor
          · intro hc; exact absurd hc (by simp [stepsPublished])
          · rintro ⟨hi, _⟩
            have : P = Q := by simpa [stepsInvoked] using hi
            exact absurd this hPQ

lemma runSteps_order (l : List Step) (Q : Phase) :
    (∀ s ∈ l, quietStep s) → (phasesOf l).Nodup → Q ∈ stepsInvoked l →
    ∃ l₁ l₂, (runSteps l).1 = l₁ ++ Event.invoke Q :: l₂ ∧
      Event.invoke Q ∉ l₁ ∧ Event.invoke Q ∉ l₂ ∧
      publishedTopics l₁ =
        ((phasesOf l).takeWhile (fun R => decide (R ≠ Q))).map completionTopic := by
  induction l with
  | nil => intro _ _ hQ; simp [stepsInvoked] at hQ
  | cons s rest ih =>
    intro hq hnd hQ
    have hqs : quietStep s := hq s (List.mem_cons_self s rest)
    have hqr : ∀ t ∈ rest, quietStep t := fun t ht => hq t (List.mem_cons_of_mem s ht)
    cases s with
    | wiring tr res =>
      cases res with
      | error e => exact absurd hQ (by simp [stepsInvoked])
      | ok u =>
        cases u
        have hnd2 : (phasesOf rest).Nodup := by simpa [phasesOf] using hnd
        have hQ2 : Q ∈ stepsInvoked rest := hQ
        obtain ⟨l₁, l₂, htr, h1, h2, hpub⟩ := ih hqr hnd2 hQ2
        refine ⟨tr ++ l₁, l₂, ?_, ?_, h2, ?_⟩
        · show (seqT (tr, Except.ok ()) (runSteps rest)).1 = _
          rw [seqT_ok_left _ _ rfl]
          show tr ++ (runSteps rest).1 = _
          rw [htr, List.append_assoc]
        · intro hmem
          rcases List.mem_append.mp hmem with hc | hc
          · exact invoke_not_mem_quiet tr hqs Q hc
          · exact h1 hc
        · rw [publishedTopics_append, publishedTopics_quiet tr hqs, hpub]
          rfl
    | phase Qh qevs qres =>
      have hndc := List.nodup_cons.mp (show (Qh :: phasesOf rest).Nodup by
        simpa [phasesOf] using hnd)
      by_cases hQQh : Q = Qh
      · subst hQQh
        cases qres with
        | ok u =>
          cases u
          refine ⟨[], qevs ++ ([Event.publishE (completionTopic Q) none] ++ (runSteps rest).1),
            ?_, by simp, ?_, ?_⟩
          · show (seqT (Event.invoke Q :: (qevs ++ [Event.publishE (completionTopic Q) none]),
              Except.ok ()) (runSteps rest)).1 = _
            rw [seqT_ok_left _ _ rfl]
            show (Event.invoke Q :: (qevs ++ [Event.publishE (completionTopic Q) none])) ++
              (runSteps rest).1 = _
            simp [List.append_assoc]
          · intro hmem
            rcases List.mem_append.mp hmem with hc | hc
            · exact invoke_not_mem_quiet qevs hqs Q hc
            · rcases List.mem_append.mp hc with hc2 | hc2
              · simp at hc2
              · rw [runSteps_invoke rest hqr Q] at hc2
                exact hndc.1 (stepsInvoked_subset rest Q hc2)
          · show publishedTopics [] = _
            rw [show phasesOf (Step.phase Q qevs (Except.ok ()) :: rest) =
                  Q :: phasesOf rest from rfl]
            simp [List.takeWhile_cons, publishedTopics_nil]
        | error e =>
          refine ⟨[], qevs, ?_, by simp, ?_, ?_⟩
          · show (seqT (Event.invoke Q :: qevs, Except.error e) (runSteps rest)).1 = _
            rw [seqT_err_left _ _ e rfl]
            rfl
          · exact invoke_not_mem_quiet qevs hqs Q
          · show publishedTopics [] = _
            rw [show phasesOf (Step.phase Q qevs (Except.error e) :: rest) =
                  Q :: phasesOf rest from rfl]
            simp [List.takeWhile_cons, publishedTopics_nil]
      · cases qres with
        | error e =>
          have : Q = Qh := by simpa [stepsInvoked] using hQ
          exact absurd this hQQh
        | ok u =>
          cases u
          have hQ2 : Q ∈ stepsInvoked rest := by
            rcases List.mem_cons.mp hQ with hc | hc
            · exact absurd hc hQQh
            · exact hc
          obtain ⟨l₁, l₂, htr, h1, h2, hpub⟩ := ih hqr hndc.2 hQ2
          have hne : Qh ≠ Q := fun hc => hQQh hc.symm
          refine ⟨Event.invoke Qh ::
            (qevs ++ ([Event.publishE (completionTopic Qh) none] ++ l₁)), l₂, ?_, ?_, h2, ?_⟩
          · show (seqT (Event.invoke Qh :: (qevs ++ [Event.publishE (completionTopic Qh) none]),
              Except.ok ()) (runSteps rest)).1 = _
            rw [seqT_ok_left _ _ rfl]
            show (Event.invoke Qh :: (qevs ++ [Event.publishE (completionTopic Qh) none])) ++
              (runSteps rest).1 = _
            rw [htr]
            simp [List.append_assoc]
          · intro hmem
            rcases List.mem_cons.mp hmem with hc | hc
            · have : Q = Qh := by injection hc
              exact hQQh this
            · rcases List.mem_append.mp hc with hc2 | hc2
              · exact invoke_not_mem_quiet qevs hqs Q hc2
              · rcases List.mem_append.mp hc2 with hc3 | hc3
                · simp at hc3
                · exact h1 hc3
          · rw [publishedTopics_cons_invoke, publishedTopics_append,
              publishedTopics_quiet qevs hqs, publishedTopics_append,
              publishedTopics_cons_publish, publishedTopics_nil, hpub]
            rw [show phasesOf (Step.phase Qh qevs (Except.ok ()) :: rest) =
                  Qh :: phasesOf rest from rfl]
            rw [List.takeWhile_cons]
            simp [hne]

/-! Instantiation: the try body of `initialize` is the run of one
concrete step list. -/

lemma phaseStep_eq_runStep (env : Env) (h : Handler) (P : Phase) (a1 a2 : JSValue) :
    phaseStep env h P a1 a2 =
      runStep (Step.phase P (runHandler env h a1 a2).1 (runHandler env h a1 a2).2) := by
  unfold phaseStep runStep
  rcases hr : runHandler env h a1 a2 with ⟨evs, r⟩
  cases r <;> rfl

lemma seqT_unit (a : TraceResult) : seqT a ([], Except.ok ()) = a := by
  rcases a with ⟨evs, r⟩
  cases r with
  | ok u => cases u; simp [seqT]
  | error e => rfl

/-- The step list of one run of the try body. -/
def stepsOf (env : Env) (hs : Handlers) (loggingService analyticsService : JSValue)
    (requireUser hydrateUser : JSValue) (messages : Option JSValue) : List Step :=
  [Step.phase Phase.pubSub (runHandler env hs.pubSub JSValue.undef JSValue.undef).1
     (runHandler env hs.pubSub JSValue.undef JSValue.undef).2,
   Step.phase Phase.config (runHandler env hs.config JSValue.undef JSValue.undef).1
     (runHandler env hs.config JSValue.undef JSValue.undef).2,
   Step.wiring (configureLoggingStep env loggingService).1
     (configureLoggingStep env loggingService).2,
   Step.phase Phase.logging (runHandler env hs.logging JSValue.undef JSValue.undef).1
     (runHandler env hs.logging JSValue.undef JSValue.undef).2,
   Step.wiring (configureAuthStep env).1 (configureAuthStep env).2,
   Step.phase Phase.auth (runHandler env hs.auth requireUser hydrateUser).1
     (runHandler env hs.auth requireUser hydrateUser).2,
   Step.wiring (configureAnalyticsStep env analyticsService).1
     (configureAnalyticsStep env analyticsService).2,
   Step.phase Phase.analytics (runHandler env hs.analytics JSValue.undef JSValue.undef).1
     (runHandler env hs.analytics JSValue.undef JSValue.undef).2,
   Step.wiring (configureI18nStep env messages).1 (configureI18nStep env messages).2,
   Step.phase Phase.i18n (runHandler env hs.i18n JSValue.undef JSValue.undef).1
     (runHandler env hs.i18n JSValue.undef JSValue.undef).2,
   Step.phase Phase.ready (runHandler env hs.ready JSValue.undef JSValue.undef).1
     (runHandler env hs.ready JSValue.undef JSValue.undef).2]

lemma tryBody_eq_runSteps (env : Env) (hs : Handlers) (ls as ru hu : JSValue)
    (ms : Option JSValue) :
    tryBody env hs ls as ru hu ms = runSteps (stepsOf env hs ls as ru hu ms) := by
  unfold tryBody stepsOf
  simp only [runSteps, phaseStep_eq_runStep, runStep, seqT_unit, Prod.mk.eta]

lemma stepsOf_quiet (env : Env) (hs : Handlers) (ls as ru hu : JSValue)
    (ms : Option JSValue) :
    ∀ s ∈ stepsOf env hs ls as ru hu ms, quietStep s := by
  intro s hmem
  simp only [stepsOf, List.mem_cons, List.not_mem_nil, or_false] at hmem
  rcases hmem with h | h | h | h | h | h | h | h | h | h | h <;> subst h
  · exact runHandler_quiet env hs.pubSub JSValue.undef JSValue.undef
  · exact runHandler_quiet env hs.config JSValue.undef JSValue.undef
  · show ∀ ev ∈ (configureLoggingStep env ls).1, quietEvent ev = true
    simp [configureLoggingStep, quietEvent]
  · exact runHandler_quiet env hs.logging JSValue.undef JSValue.undef
  · show ∀ ev ∈ (configureAuthStep env).1, quietEvent ev = true
    unfold configureAuthStep
    split <;> simp [quietEvent]
  · exact runHandler_quiet env hs.auth ru hu
  · show ∀ ev ∈ (configureAnalyticsStep env as).1, quietEvent ev = true
    simp [configureAnalyticsStep, quietEvent]
  · exact runHandler_quiet env hs.analytics JSValue.undef JSValue.undef
  · show ∀ ev ∈ (configureI18nStep env ms).1, quietEvent ev = true
    simp [configureI18nStep, quietEvent]
  · exact runHandler_quiet env hs.i18n JSValue.undef JSValue.undef
  · exact runHandler_quiet env hs.ready JSValue.undef JSValue.undef

lemma stepsOf_phases (env : Env) (hs : Handlers) (ls as ru hu : JSValue)
    (ms : Option JSValue) : phasesOf (stepsOf env hs ls as ru hu ms) = allPhases := rfl

lemma stepsOf_nodup (env : Env) (hs : Handlers) (ls as ru hu : JSValue)
    (ms : Option JSValue) : (phasesOf (stepsOf env hs ls as ru hu ms)).Nodup := by
  rw [stepsOf_phases]
  decide

lemma stepsOf_last (env : Env) (hs : Handlers) (ls as ru hu : JSValue)
    (ms : Option JSValue) :
    ∃ s, (stepsOf env hs ls as ru hu ms).getLast? = some s ∧ isPhaseStep s = true := by
  refine ⟨Step.phase Phase.ready (runHandler env hs.ready JSValue.undef JSValue.undef).1
    (runHandler env hs.ready JSValue.undef JSValue.undef).2, ?_, rfl⟩
  rfl

/-- The trace the handler of a phase would produce in a given run. -/
def handlerTrace (env : Env) (hs : Handlers) (ru hu : JSValue) : Phase → List Event
  | Phase.pubSub => (runHandler env hs.pubSub JSValue.undef JSValue.undef).1
  | Phase.config => (runHandler env hs.config JSValue.undef JSValue.undef).1
  | Phase.logging => (runHandler env hs.logging JSValue.undef JSValue.undef).1
  | Phase.auth => (runHandler env hs.auth ru hu).1
  | Phase.analytics => (runHandler env hs.analytics JSValue.undef JSValue.undef).1
  | Phase.i18n => (runHandler env hs.i18n JSValue.undef JSValue.undef).1
  | Phase.ready => (runHandler env hs.ready JSValue.undef JSValue.undef).1

/-- The outcome the handler of a phase would produce in a given run
(the `auth` phase receives `(requireUser, hydrateUser)`; the others are
called with no arguments). -/
def handlerResult (env : Env) (hs : Handlers) (ru hu : JSValue) : Phase → Except JSValue Unit
  | Phase.pubSub => (runHandler env hs.pubSub JSValue.undef JSValue.undef).2
  | Phase.config => (runHandler env hs.config JSValue.undef JSValue.undef).2
  | Phase.logging => (runHandler env hs.logging JSValue.undef JSValue.undef).2
  | Phase.auth => (runHandler env hs.auth ru hu).2
  | Phase.analytics => (runHandler env hs.analytics JSValue.undef JSValue.undef).2
  | Phase.i18n => (runHandler env hs.i18n JSValue.undef JSValue.undef).2
  | Phase.ready => (runHandler env hs.ready JSValue.undef JSValue.undef).2

lemma stepsOf_mem_phase (env : Env) (hs : Handlers) (ls as ru hu : JSValue)
    (ms : Option JSValue) (P : Phase) :
    Step.phase P (handlerTrace env hs ru hu P) (handlerResult env hs ru hu P) ∈
      stepsOf env hs ls as ru hu ms := by
  cases P <;> simp [stepsOf, handlerTrace, handlerResult]

/-- The step list of `bodyOf opts env`. -/
def bodySteps (opts : InitOptions) (env : Env) : List Step :=
  stepsOf env (effHandlers opts) (opts.loggingService.getD NewRelicLoggingService)
    (opts.analyticsService.getD SegmentAnalyticsService)
    (requireUserOf opts) (hydrateUserOf opts) opts.messages

lemma bodyOf_eq_runSteps (opts : InitOptions) (env : Env) :
    bodyOf opts env = runSteps (bodySteps opts env) :=
  tryBody_eq_runSteps env (effHandlers opts) _ _ _ _ _

lemma bodySteps_quiet (opts : InitOptions) (env : Env) :
    ∀ s ∈ bodySteps opts env, quietStep s :=
  stepsOf_quiet env (effHandlers opts) _ _ _ _ _

lemma bodySteps_phases (opts : InitOptions) (env : Env) :
    phasesOf (bodySteps opts env) = allPhases := rfl

lemma body_published_take (opts : InitOptions) (env : Env) :
    ∃ k, k ≤ 7 ∧ publishedTopics (bodyOf opts env).1 = allTopics.take k := by
  obtain ⟨k, hk, hpub⟩ := stepsPublished_take (bodySteps opts env)
  refine ⟨k, ?_, ?_⟩
  · simpa [bodySteps_phases, allPhases] using hk
  · rw [bodyOf_eq_runSteps, runSteps_published _ (bodySteps_quiet opts env), hpub,
      bodySteps_phases]
    rfl

lemma body_ok_iff (opts : InitOptions) (env : Env) :
    (bodyOf opts env).2 = Except.ok () ↔
      ∀ s ∈ bodySteps opts env, stepRes s = Except.ok () := by
  rw [bodyOf_eq_runSteps]
  exact runSteps_ok (bodySteps opts env)

lemma body_published_of_ok (opts : InitOptions) (env : Env)
    (h : (bodyOf opts env).2 = Except.ok ()) :
    publishedTopics (bodyOf opts env).1 = allTopics := by
  rw [bodyOf_eq_runSteps, runSteps_published _ (bodySteps_quiet opts env)]
  have := (stepsPublished_of_ok (bodySteps opts env) ((body_ok_iff opts env).mp h)).1
  rw [this, bodySteps_phases]
  rfl

lemma body_published_ne_of_err (opts : InitOptions) (env : Env) (e : JSValue)
    (h : (bodyOf opts env).2 = Except.error e) :
    publishedTopics (bodyOf opts env).1 ≠ allTopics := by
  rw [bodyOf_eq_runSteps, runSteps_published _ (bodySteps_quiet opts env)]
  have hne := stepsPublished_ne_of_err (bodySteps opts env) e
    (by rw [← bodyOf_eq_runSteps]; exact h)
    (stepsOf_last env (effHandlers opts) _ _ _ _ _)
  rw [bodySteps_phases] at hne
  exact hne

lemma body_char (opts : InitOptions) (env : Env) (P : Phase) :
    completionTopic P ∈ publishedTopics (bodyOf opts env).1 ↔
      Event.invoke P ∈ (bodyOf opts env).1 ∧
        handlerResult env (effHandlers opts) (requireUserOf opts) (hydrateUserOf opts) P =
          Except.ok () := by
  have hchar := runSteps_char (bodySteps opts env) P
    (handlerTrace env (effHandlers opts) (requireUserOf opts) (hydrateUserOf opts) P)
    (handlerResult env (effHandlers opts) (requireUserOf opts) (hydrateUserOf opts) P)
    (by rw [bodySteps_phases]; decide)
    (stepsOf_mem_phase env (effHandlers opts) _ _ _ _ _ P)
  rw [bodyOf_eq_runSteps, runSteps_published _ (bodySteps_quiet opts env),
    runSteps_invoke _ (bodySteps_quiet opts env)]
  exact hchar

lemma body_no_invokeInitError (opts : InitOptions) (env : Env) (v : JSValue) :
    Event.invokeInitError v ∉ (bodyOf opts env).1 := by
  rw [bodyOf_eq_runSteps]
  exact runSteps_no_invokeInitError (bodySteps opts env) v (bodySteps_quiet opts env)

lemma mem_takeWhile_of_next (P Q : Phase) (h : phaseNext P = some Q) :
    completionTopic P ∈
      (allPhases.takeWhile (fun R => decide (R ≠ Q))).map completionTopic := by
  cases P <;> simp [phaseNext] at h <;> subst h <;> decide

lemma body_order (opts : InitOptions) (env : Env) (P Q : Phase)
    (hnext : phaseNext P = some Q) (hinv : Event.invoke Q ∈ (bodyOf opts env).1) :
    ∃ l₁ l₂, (bodyOf opts env).1 = l₁ ++ Event.invoke Q :: l₂ ∧
      Event.invoke Q ∉ l₁ ∧ Event.invoke Q ∉ l₂ ∧
      completionTopic P ∈ publishedTopics l₁ := by
  rw [bodyOf_eq_runSteps] at hinv ⊢
  have hinv2 : Q ∈ stepsInvoked (bodySteps opts env) :=
    (runSteps_invoke _ (bodySteps_quiet opts env) Q).mp hinv
  obtain ⟨l₁, l₂, htr, h1, h2, hpub⟩ := runSteps_order (bodySteps opts env) Q
    (bodySteps_quiet opts env) (by rw [bodySteps_phases]; decide) hinv2
  refine ⟨l₁, l₂, htr, h1, h2, ?_⟩
  rw [hpub, bodySteps_phases]
  exact mem_takeWhile_of_next P Q hnext

lemma bodySteps_res_ok (opts : InitOptions) (env : Env)
    (hH : ∀ P, handlerResult env (effHandlers opts) (requireUserOf opts) (hydrateUserOf opts) P =
      Except.ok ())
    (hcfg : isNullish env.config = false)
    (hw1 : env.configureLoggingResult = Except.ok ())
    (hw2 : env.configureAuthResult = Except.ok ())
    (hw3 : env.configureAnalyticsResult = Except.ok ())
    (hw4 : env.configureI18nResult = Except.ok ()) :
    ∀ s ∈ bodySteps opts env, stepRes s = Except.ok () := by
  intro s hmem
  simp only [bodySteps, stepsOf, List.mem_cons, List.not_mem_nil, or_false] at hmem
  rcases hmem with h|h|h|h|h|h|h|h|h|h|h <;> subst h
  · exact hH Phase.pubSub
  · exact hH Phase.config
  · exact hw1
  · exact hH Phase.logging
  · show (configureAuthStep env).2 = Except.ok ()
    simp [configureAuthStep, hcfg, hw2]
  · exact hH Phase.auth
  · exact hw3
  · exact hH Phase.analytics
  · exact hw4
  · exact hH Phase.i18n
  · exact hH Phase.ready

/-! Shape of `initializeApp` in each case of the catch block. -/

lemma initApp_ok (opts : InitOptions) (env : Env) :
    (bodyOf opts env).2 = Except.ok () →
    initializeApp (some opts) env = ((bodyOf opts env).1, Except.ok ()) := by
  intro h
  simp only [initializeApp]
  rcases hb : bodyOf opts env with ⟨evs, r⟩
  rw [hb] at h
  cases r with
  | ok u => cases u; rfl
  | error e => exact Except.noConfusion h

lemma initApp_nullish (opts : InitOptions) (env : Env) (e : JSValue) :
    (bodyOf opts env).2 = Except.error e → isNullish e = true →
    initializeApp (some opts) env = ((bodyOf opts env).1, Except.error typeError) := by
  intro h hn
  simp only [initializeApp]
  rcases hb : bodyOf opts env with ⟨evs, r⟩
  rw [hb] at h
  cases r with
  | ok u => exact Except.noConfusion h
  | error e2 =>
    have he : e2 = e := by injection h
    subst he
    simp [hn]

lemma initApp_redirect (opts : InitOptions) (env : Env) (e : JSValue) :
    (bodyOf opts env).2 = Except.error e → isNullish e = false →
    truthy (fieldOf e "isRedirecting") = true →
    initializeApp (some opts) env = ((bodyOf opts env).1, Except.ok ()) := by
  intro h hn hr
  simp only [initializeApp]
  rcases hb : bodyOf opts env with ⟨evs, r⟩
  rw [hb] at h
  cases r with
  | ok u => exact Except.noConfusion h
  | error e2 =>
    have he : e2 = e := by injection h
    subst he
    simp [hn, hr]

lemma initApp_plain_ok (opts : InitOptions) (env : Env) (e : JSValue) (ievs : List Event) :
    (bodyOf opts env).2 = Except.error e → isNullish e = false →
    truthy (fieldOf e "isRedirecting") = false →
    runHandler env (effHandlers opts).initError e JSValue.undef = (ievs, Except.ok ()) →
    initializeApp (some opts) env =
      ((bodyOf opts env).1 ++ Event.invokeInitError e ::
        (ievs ++ [Event.publishE APP_INIT_ERROR (some e)]), Except.ok ()) := by
  intro h hn hr hh
  simp only [initializeApp]
  rcases hb : bodyOf opts env with ⟨evs, r⟩
  rw [hb] at h
  cases r with
  | ok u => exact Except.noConfusion h
  | error e2 =>
    have he : e2 = e := by injection h
    subst he
    simp [hn, hr, hh]

lemma initApp_plain_err (opts : InitOptions) (env : Env) (e e2 : JSValue)
    (ievs : List Event) :
    (bodyOf opts env).2 = Except.error e → isNullish e = false →
    truthy (fieldOf e "isRedirecting") = false →
    runHandler env (effHandlers opts).initError e JSValue.undef = (ievs, Except.error e2) →
    initializeApp (some opts) env =
      ((bodyOf opts env).1 ++ Event.invokeInitError e :: ievs, Except.error e2) := by
  intro h hn hr hh
  simp only [initializeApp]
  rcases hb : bodyOf opts env with ⟨evs, r⟩
  rw [hb] at h
  cases r with
  | ok u => exact Except.noConfusion h
  | error e3 =>
    have he : e3 = e := by injection h
    subst he
    simp [hn, hr, hh]

lemma mem_publishedTopics (l : List Event) (t : String) :
    t ∈ publishedTopics l ↔ ∃ p, Event.publishE t p ∈ l := by
  unfold publishedTopics
  rw [List.mem_filterMap]
  constructor
  · rintro ⟨a, ha, hf⟩
    cases a <;> simp at hf
    case publishE t2 p2 =>
      rw [← hf]
      exact ⟨p2, ha⟩
  · rintro ⟨p, hp⟩
    exact ⟨Event.publishE t p, hp, rfl⟩

lemma completionTopic_ne_initError (P : Phase) : completionTopic P ≠ APP_INIT_ERROR := by
  cases P <;> decide

lemma initError_not_mem_allTopics : APP_INIT_ERROR ∉ allTopics := by decide

lemma mem_seqT (e : Event) (a b : TraceResult) (h : e ∈ (seqT a b).1) :
    e ∈ a.1 ∨ e ∈ b.1 := by
  rcases a with ⟨evs, r⟩
  cases r with
  | ok u =>
    rcases List.mem_append.mp h with h1 | h1
    · exact Or.inl h1
    · exact Or.inr h1
  | error e2 => exact Or.inl h

lemma mem_runSteps (e : Event) (l : List Step) :
    e ∈ (runSteps l).1 → ∃ s ∈ l, e ∈ (runStep s).1 := by
  induction l with
  | nil => intro h; simp [runSteps] at h
  | cons s rest ih =>
    intro h
    rcases mem_seqT e (runStep s) (runSteps rest) h with h1 | h1
    · exact ⟨s, List.mem_cons_self s rest, h1⟩
    · obtain ⟨s2, hs2, hmem⟩ := ih h1
      exact ⟨s2, List.mem_cons_of_mem s hs2, hmem⟩

lemma mem_runStep_phase (e : Event) (P : Phase) (hevs : List Event)
    (hres : Except JSValue Unit) (h : e ∈ (runStep (Step.phase P hevs hres)).1) :
    e = Event.invoke P ∨ e ∈ hevs ∨ e = Event.publishE (completionTopic P) none := by
  cases hres with
  | ok u =>
    rcases List.mem_cons.mp h with h1 | h1
    · exact Or.inl h1
    · rcases List.mem_append.mp h1 with h2 | h2
      · exact Or.inr (Or.inl h2)
      · exact Or.inr (Or.inr (List.mem_singleton.mp h2))
  | error e2 =>
    rcases List.mem_cons.mp h with h1 | h1
    · exact Or.inl h1
    · exact Or.inr (Or.inl h1)

/-- Decomposition of the full trace of `initializeApp`: the try body's
trace followed by the catch block's appendix, which invokes no phase
handler and publishes nothing but `APP.INIT_ERROR`. -/
lemma initApp_trace_decomp (opts : InitOptions) (env : Env) :
    ∃ apx : List Event,
      (initializeApp (some opts) env).1 = (bodyOf opts env).1 ++ apx ∧
      (∀ P, Event.invoke P ∉ apx) ∧
      (∀ t p, Event.publishE t p ∈ apx → t = APP_INIT_ERROR) ∧
      (∀ a, Event.configureAuthE a ∉ apx) := by
  rcases hb2 : (bodyOf opts env).2 with e | u
  case ok =>
    cases u
    refine ⟨[], ?_, by simp, by simp, by simp⟩
    rw [initApp_ok opts env hb2]
    simp
  case error =>
    cases hn : isNullish e with
    | true =>
      refine ⟨[], ?_, by simp, by simp, by simp⟩
      rw [initApp_nullish opts env e hb2 hn]
      simp
    | false =>
      cases hr : truthy (fieldOf e "isRedirecting") with
      | true =>
        refine ⟨[], ?_, by simp, by simp, by simp⟩
        rw [initApp_redirect opts env e hb2 hn hr]
        simp
      | false =>
        rcases hrun : runHandler env (effHandlers opts).initError e JSValue.undef with ⟨ievs, ir⟩
        have hievs : ∀ ev ∈ ievs, isCallEvent ev = true := by
          have := runHandler_calls env (effHandlers opts).initError e JSValue.undef
          rw [hrun] at this
          exact this
        cases ir with
        | ok u =>
          cases u
          refine ⟨Event.invokeInitError e ::
            (ievs ++ [Event.publishE APP_INIT_ERROR (some e)]), ?_, ?_, ?_, ?_⟩
          · rw [initApp_plain_ok opts env e ievs hb2 hn hr hrun]
          · intro P hmem
            rcases List.mem_cons.mp hmem with h1 | h1
            · exact Event.noConfusion h1
            · rcases List.mem_append.mp h1 with h2 | h2
              · have := quiet_of_call _ (hievs _ h2)
                simp [quietEvent] at this
              · simp at h2
          · intro t p hmem
            rcases List.mem_cons.mp hmem with h1 | h1
            · exact Event.noConfusion h1
            · rcases List.mem_append.mp h1 with h2 | h2
              · have := quiet_of_call _ (hievs _ h2)
                simp [quietEvent] at this
              · simp only [List.mem_singleton, Event.publishE.injEq] at h2
                exact h2.1
          · intro a hmem
            rcases List.mem_cons.mp hmem with h1 | h1
            · exact Event.noConfusion h1
            · rcases List.mem_append.mp h1 with h2 | h2
              · have := hievs _ h2
                simp [isCallEvent] at this
              · simp at h2
        | error e2 =>
          refine ⟨Event.invokeInitError e :: ievs, ?_, ?_, ?_, ?_⟩
          · rw [initApp_plain_err opts env e e2 ievs hb2 hn hr hrun]
          · intro P hmem
            rcases List.mem_cons.mp hmem with h1 | h1
            · exact Event.noConfusion h1
            · have := quiet_of_call _ (hievs _ h1)
              simp [quietEvent] at this
          · intro t p hmem
            rcases List.mem_cons.mp hmem with h1 | h1
            · exact Event.noConfusion h1
            · have := quiet_of_call _ (hievs _ h1)
              simp [quietEvent] at this
          · intro a hmem
            rcases List.mem_cons.mp hmem with h1 | h1
            · exact Event.noConfusion h1
            · have := hievs _ h1
              simp [isCallEvent] at this

/-! The claims. -/

/-- C1: for every options record, when no phase handler and no pre-phase
wiring throws, `initialize` publishes the completion topics in exactly the
fixed order PUBSUB, CONFIG, LOGGING, AUTH, ANALYTICS, I18N, READY -- each
exactly once, none skipped -- and `APP.INIT_ERROR` is not published (and
the returned promise resolves). -/
theorem spec_C1 (opts : InitOptions) (env : Env)
    (hH : ∀ P, handlerResult env (effHandlers opts) (requireUserOf opts) (hydrateUserOf opts) P =
      Except.ok ())
    (hcfg : isNullish env.config = false)
    (hw1 : env.configureLoggingResult = Except.ok ())
    (hw2 : env.configureAuthResult = Except.ok ())
    (hw3 : env.configureAnalyticsResult = Except.ok ())
    (hw4 : env.configureI18nResult = Except.ok ()) :
    publishedTopics (initializeApp (some opts) env).1 =
      [APP_PUBSUB_INITIALIZED, APP_CONFIG_INITIALIZED, APP_LOGGING_INITIALIZED,
       APP_AUTH_INITIALIZED, APP_ANALYTICS_INITIALIZED, APP_I18N_INITIALIZED, APP_READY] ∧
    APP_INIT_ERROR ∉ publishedTopics (initializeApp (some opts) env).1 ∧
    (initializeApp (some opts) env).2 = Except.ok () := by
  have hok : (bodyOf opts env).2 = Except.ok () :=
    (body_ok_iff opts env).mpr (bodySteps_res_ok opts env hH hcfg hw1 hw2 hw3 hw4)
  have hshape := initApp_ok opts env hok
  have hpub : publishedTopics (initializeApp (some opts) env).1 = allTopics := by
    rw [hshape]
    exact body_published_of_ok opts env hok
  refine ⟨?_, ?_, ?_⟩
  · rw [hpub]; rfl
  · rw [hpub]; exact initError_not_mem_allTopics
  · rw [hshape]

/-- Witness for C1 at the empty options record and an all-resolving
environment. -/
theorem spec_C1_witness :
    publishedTopics (initializeApp (some {}) envOk).1 =
      [APP_PUBSUB_INITIALIZED, APP_CONFIG_INITIALIZED, APP_LOGGING_INITIALIZED,
       APP_AUTH_INITIALIZED, APP_ANALYTICS_INITIALIZED, APP_I18N_INITIALIZED, APP_READY] ∧
    APP_INIT_ERROR ∉ publishedTopics (initializeApp (some {}) envOk).1 ∧
    (initializeApp (some {}) envOk).2 = Except.ok () :=
  spec_C1 {} envOk (by intro P; cases P <;> rfl) rfl rfl rfl rfl rfl

/-- C3: when a phase handler or a pre-phase wiring step throws a value
carrying a truthy redirect marker, `initialize` stops silently: it
resolves, appends nothing to the trace, never invokes the error handler,
does not publish `APP.INIT_ERROR`, the published topics are a proper
prefix of the seven completion topics, and every published completion
topic belongs to a phase whose handler resolved (so the failing phase and
all later ones are unpublished). -/
theorem spec_C3 (opts : InitOptions) (env : Env) (e : JSValue)
    (hb : (bodyOf opts env).2 = Except.error e)
    (hnn : isNullish e = false)
    (hmark : truthy (fieldOf e "isRedirecting") = true) :
    (initializeApp (some opts) env).2 = Except.ok () ∧
    (initializeApp (some opts) env).1 = (bodyOf opts env).1 ∧
    (∀ v, Event.invokeInitError v ∉ (initializeApp (some opts) env).1) ∧
    APP_INIT_ERROR ∉ publishedTopics (initializeApp (some opts) env).1 ∧
    (∃ k, k < 7 ∧ publishedTopics (initializeApp (some opts) env).1 = allTopics.take k) ∧
    (∀ P, completionTopic P ∈ publishedTopics (initializeApp (some opts) env).1 →
      handlerResult env (effHandlers opts) (requireUserOf opts) (hydrateUserOf opts) P =
        Except.ok ()) := by
  have hshape := initApp_redirect opts env e hb hnn hmark
  obtain ⟨k, hk7, hpub⟩ := body_published_take opts env
  have hne := body_published_ne_of_err opts env e hb
  have hklt : k < 7 := by
    rcases Nat.lt_or_ge k 7 with h | h
    · exact h
    · exfalso
      have hk7eq : k = 7 := Nat.le_antisymm hk7 h
      apply hne
      rw [hpub, hk7eq]
      rfl
  refine ⟨by rw [hshape], by rw [hshape], ?_, ?_, ?_, ?_⟩
  · intro v
    rw [hshape]
    exact body_no_invokeInitError opts env v
  · rw [hshape]
    show APP_INIT_ERROR ∉ publishedTopics (bodyOf opts env).1
    rw [hpub]
    intro hmem
    exact initError_not_mem_allTopics (List.take_subset k allTopics hmem)
  · refine ⟨k, hklt, ?_⟩
    rw [hshape]
    exact hpub
  · intro P hmemP
    rw [hshape] at hmemP
    exact ((body_char opts env P).mp hmemP).2

/-- Options whose `auth` override rejects with a redirect-marked error. -/
def optsRedirect : InitOptions :=
  { handlers := some { auth := some (Handler.custom (Except.error
      (JSValue.obj [("isRedirecting", JSValue.bool true)]))) } }

/-- Witness for C3: an auth override that throws a redirect-marked error
at an all-resolving environment. -/
theorem spec_C3_witness :
    (initializeApp (some optsRedirect) envOk).2 = Except.ok () ∧
    (initializeApp (some optsRedirect) envOk).1 = (bodyOf optsRedirect envOk).1 ∧
    (∀ v, Event.invokeInitError v ∉ (initializeApp (some optsRedirect) envOk).1) ∧
    APP_INIT_ERROR ∉ publishedTopics (initializeApp (some optsRedirect) envOk).1 ∧
    (∃ k, k < 7 ∧ publishedTopics (initializeApp (some optsRedirect) envOk).1 =
      allTopics.take k) ∧
    (∀ P, completionTopic P ∈ publishedTopics (initializeApp (some optsRedirect) envOk).1 →
      handlerResult envOk (effHandlers optsRedirect) (requireUserOf optsRedirect)
        (hydrateUserOf optsRedirect) P = Except.ok ()) :=
  spec_C3 optsRedirect envOk (JSValue.obj [("isRedirecting", JSValue.bool true)])
    (by decide) (by decide) (by decide)

/-- C10: calling `initialize` with no options record at all rejects with a
TypeError raised while destructuring the parameter, before any handler is
invoked and before any topic is published; the empty record `{}` selects
exactly the documented defaults (`NewRelicLoggingService`,
`SegmentAnalyticsService`, `requireAuthenticatedUser = false`,
`hydrateAuthenticatedUser = false`, `handlers = {}`). -/
theorem spec_C10 (env : Env) :
    initializeApp none env = ([], Except.error typeError) ∧
    publishedTopics (initializeApp none env).1 = [] ∧
    (∀ P, Event.invoke P ∉ (initializeApp none env).1) ∧
    initializeApp (some {}) env =
      initializeApp (some { loggingService := some NewRelicLoggingService
                            analyticsService := some SegmentAnalyticsService
                            requireAuthenticatedUser := some (JSValue.bool false)
                            hydrateAuthenticatedUser := some (JSValue.bool false)
                            messages := none
                            handlers := some {} }) env := by
  refine ⟨rfl, rfl, ?_, rfl⟩
  intro P h
  exact List.not_mem_nil (Event.invoke P) h

/-- C2: in every run, for every phase P, the completion event of P is
published if and only if P's handler (default or override) was invoked
and resolved without throwing -- in particular a phase whose pre-phase
wiring throws gets no completion event -- and the handler of the next
phase Q is invoked at most once, and only after P's completion topic was
published. -/
theorem spec_C2 (opts : InitOptions) (env : Env) (P : Phase) :
    (completionTopic P ∈ publishedTopics (initializeApp (some opts) env).1 ↔
      Event.invoke P ∈ (initializeApp (some opts) env).1 ∧
        handlerResult env (effHandlers opts) (requireUserOf opts) (hydrateUserOf opts) P =
          Except.ok ()) ∧
    (∀ Q, phaseNext P = some Q →
      Event.invoke Q ∈ (initializeApp (some opts) env).1 →
      ∃ l₁ l₂, (initializeApp (some opts) env).1 = l₁ ++ Event.invoke Q :: l₂ ∧
        Event.invoke Q ∉ l₁ ∧ Event.invoke Q ∉ l₂ ∧
        completionTopic P ∈ publishedTopics l₁) := by
  obtain ⟨apx, htr, hinv, hpubapx, hcfgapx⟩ := initApp_trace_decomp opts env
  have hinvIff : ∀ R : Phase, Event.invoke R ∈ (initializeApp (some opts) env).1 ↔
      Event.invoke R ∈ (bodyOf opts env).1 := by
    intro R
    rw [htr, List.mem_append]
    constructor
    · rintro (h | h)
      · exact h
      · exact absurd h (hinv R)
    · exact Or.inl
  have hpubIff : ∀ R : Phase,
      completionTopic R ∈ publishedTopics (initializeApp (some opts) env).1 ↔
      completionTopic R ∈ publishedTopics (bodyOf opts env).1 := by
    intro R
    rw [htr, publishedTopics_append, List.mem_append]
    constructor
    · rintro (h | h)
      · exact h
      · exfalso
        obtain ⟨p, hp⟩ := (mem_publishedTopics apx (completionTopic R)).mp h
        exact completionTopic_ne_initError R (hpubapx _ p hp)
    · exact Or.inl
  constructor
  · rw [hpubIff P, hinvIff P]
    exact body_char opts env P
  · intro Q hnext hinvQ
    obtain ⟨l₁, l₂, hbtr, h1, h2, hP⟩ := body_order opts env P Q hnext ((hinvIff Q).mp hinvQ)
    refine ⟨l₁, l₂ ++ apx, ?_, h1, ?_, hP⟩
    · rw [htr, hbtr]
      simp [List.append_assoc]
    · intro hmem
      rcases List.mem_append.mp hmem with h | h
      · exact h2 h
      · exact hinv Q h

/-- Witness for C2 at the `auth` phase of a default all-resolving run. -/
theorem spec_C2_witness :
    (completionTopic Phase.auth ∈ publishedTopics (initializeApp (some {}) envOk).1 ↔
      Event.invoke Phase.auth ∈ (initializeApp (some {}) envOk).1 ∧
        handlerResult envOk (effHandlers {}) (requireUserOf {}) (hydrateUserOf {}) Phase.auth =
          Except.ok ()) ∧
    (∀ Q, phaseNext Phase.auth = some Q →
      Event.invoke Q ∈ (initializeApp (some {}) envOk).1 →
      ∃ l₁ l₂, (initializeApp (some {}) envOk).1 = l₁ ++ Event.invoke Q :: l₂ ∧
        Event.invoke Q ∉ l₁ ∧ Event.invoke Q ∉ l₂ ∧
        completionTopic Phase.auth ∈ publishedTopics l₁) :=
  spec_C2 {} envOk Phase.auth

/-- Options whose pubSub override rejects with the plain value `1` and
whose error-handler override itself rejects with `2`. -/
def optsThrowingInitError : InitOptions :=
  { handlers := some { pubSub := some (Handler.custom (Except.error (JSValue.num 1)))
                       initError := some (Handler.custom (Except.error (JSValue.num 2))) } }

/-- Counterexample to C4 as stated: the pubSub handler throws the plain
(non-redirect) value `1`, but because the error-handler override itself
throws, `APP.INIT_ERROR` is never published and `initialize` rejects. -/
theorem spec_C4_counterexample :
    (bodyOf optsThrowingInitError envOk).2 = Except.error (JSValue.num 1) ∧
    truthy (fieldOf (JSValue.num 1) "isRedirecting") = false ∧
    (publishedTopics (initializeApp (some optsThrowingInitError) envOk).1).count
      APP_INIT_ERROR = 0 ∧
    (initializeApp (some optsThrowingInitError) envOk).2 = Except.error (JSValue.num 2) := by
  decide

/-- C4 (amended): if a phase handler or pre-phase wiring step throws a
non-nullish value whose redirect marker is not truthy, and the error
handler invocation itself resolves, then the error handler is invoked
with exactly that value, `APP.INIT_ERROR` is published exactly once with
that value as payload, the published completion topics are a proper
prefix of the seven (so the failing phase's completion topic and all
later ones are absent), and `initialize` resolves. -/
theorem spec_C4_theorem (opts : InitOptions) (env : Env) (e : JSValue)
    (hb : (bodyOf opts env).2 = Except.error e)
    (hnn : isNullish e = false)
    (hmark : truthy (fieldOf e "isRedirecting") = false)
    (hok : (runHandler env (effHandlers opts).initError e JSValue.undef).2 = Except.ok ()) :
    Event.invokeInitError e ∈ (initializeApp (some opts) env).1 ∧
    (publishedTopics (initializeApp (some opts) env).1).count APP_INIT_ERROR = 1 ∧
    (∃ k, k < 7 ∧ publishedTopics (initializeApp (some opts) env).1 =
      allTopics.take k ++ [APP_INIT_ERROR]) ∧
    (∀ p, Event.publishE APP_INIT_ERROR p ∈ (initializeApp (some opts) env).1 →
      p = some e) ∧
    (∀ P, completionTopic P ∈ publishedTopics (initializeApp (some opts) env).1 →
      handlerResult env (effHandlers opts) (requireUserOf opts) (hydrateUserOf opts) P =
        Except.ok ()) ∧
    (initializeApp (some opts) env).2 = Except.ok () := by
  rcases hrun : runHandler env (effHandlers opts).initError e JSValue.undef with ⟨ievs, ir⟩
  rw [hrun] at hok
  cases ir with
  | error e2 => exact Except.noConfusion hok
  | ok u =>
    cases u
    have hievs : ∀ ev ∈ ievs, isCallEvent ev = true := by
      have := runHandler_calls env (effHandlers opts).initError e JSValue.undef
      rw [hrun] at this
      exact this
    have hievsPub : publishedTopics ievs = [] :=
      publishedTopics_quiet ievs (fun ev hev => quiet_of_call ev (hievs ev hev))
    have hshape := initApp_plain_ok opts env e ievs hb hnn hmark hrun
    obtain ⟨k, hk7, hpub⟩ := body_published_take opts env
    have hne := body_published_ne_of_err opts env e hb
    have hklt : k < 7 := by
      rcases Nat.lt_or_ge k 7 with h | h
      · exact h
      · exfalso
        apply hne
        rw [hpub, Nat.le_antisymm hk7 h]
        rfl
    have hfull : publishedTopics (initializeApp (some opts) env).1 =
        allTopics.take k ++ [APP_INIT_ERROR] := by
      rw [hshape, publishedTopics_append, publishedTopics_cons_invokeInitError,
        publishedTopics_append, hievsPub, publishedTopics_cons_publish,
        publishedTopics_nil, hpub]
      rfl
    refine ⟨?_, ?_, ⟨k, hklt, hfull⟩, ?_, ?_, ?_⟩
    · rw [hshape]
      refine List.mem_append.mpr (Or.inr ?_)
      exact List.mem_cons_self _ _
    · rw [hfull, List.count_append]
      have h0 : (allTopics.take k).count APP_INIT_ERROR = 0 := by
        rw [List.count_eq_zero]
        intro hmem
        exact initError_not_mem_allTopics (List.take_subset k allTopics hmem)
      rw [h0]
      rfl
    · intro p hmem
      rw [hshape] at hmem
      rcases List.mem_append.mp hmem with h | h
      · exfalso
        have : APP_INIT_ERROR ∈ publishedTopics (bodyOf opts env).1 :=
          (mem_publishedTopics _ _).mpr ⟨p, h⟩
        rw [hpub] at this
        exact initError_not_mem_allTopics (List.take_subset k allTopics this)
      · rcases List.mem_cons.mp h with h2 | h2
        · exact Event.noConfusion h2
        · rcases List.mem_append.mp h2 with h3 | h3
          · have := quiet_of_call _ (hievs _ h3)
            simp [quietEvent] at this
          · simp only [List.mem_singleton, Event.publishE.injEq] at h3
            exact h3.2
    · intro P hmemP
      rw [hfull] at hmemP
      rcases List.mem_append.mp hmemP with h | h
      · refine ((body_char opts env P).mp ?_).2
        rw [hpub]
        exact h
      · exfalso
        exact completionTopic_ne_initError P (List.mem_singleton.mp h)
    · rw [hshape]

/-- Options whose analytics override rejects with the plain value `5`. -/
def optsPlainFail : InitOptions :=
  { handlers := some { analytics := some (Handler.custom (Except.error (JSValue.num 5))) } }

/-- Witness for the amended C4: an analytics override throwing `5` with
the default error handler. -/
theorem spec_C4_witness :
    Event.invokeInitError (JSValue.num 5) ∈
      (initializeApp (some optsPlainFail) envOk).1 ∧
    (publishedTopics (initializeApp (some optsPlainFail) envOk).1).count APP_INIT_ERROR = 1 ∧
    (initializeApp (some optsPlainFail) envOk).2 = Except.ok () :=
  ⟨(spec_C4_theorem optsPlainFail envOk (JSValue.num 5) (by decide) (by decide) (by decide)
      (by decide)).1,
   (spec_C4_theorem optsPlainFail envOk (JSValue.num 5) (by decide) (by decide) (by decide)
      (by decide)).2.1,
   (spec_C4_theorem optsPlainFail envOk (JSValue.num 5) (by decide) (by decide) (by decide)
      (by decide)).2.2.2.2.2⟩

/-- Options whose pubSub override rejects with `null`. -/
def optsThrowNull : InitOptions :=
  { handlers := some { pubSub := some (Handler.custom (Except.error JSValue.null)) } }

/-- Counterexample to C5 as stated: a handler that throws `null` makes
`initialize` itself reject (the catch block's `error.isRedirecting`
access throws a TypeError), so `initialize` does not resolve for every
thrown value. -/
theorem spec_C5_counterexample :
    (bodyOf optsThrowNull envOk).2 = Except.error JSValue.null ∧
    (initializeApp (some optsThrowNull) envOk).2 = Except.error typeError ∧
    ¬ (initializeApp (some optsThrowNull) envOk).2 = Except.ok () := by
  decide

/-- C5 (amended): `initialize` never rejects provided every value thrown
by a handler or wiring step is neither `null` nor `undefined` and the
error-handler invocation resolves; under those provisos a non-redirect
failure is observable exactly through the `APP.INIT_ERROR` topic. -/
theorem spec_C5_theorem (opts : InitOptions) (env : Env)
    (h1 : ∀ e, (bodyOf opts env).2 = Except.error e → isNullish e = false)
    (h2 : ∀ e, (bodyOf opts env).2 = Except.error e →
      truthy (fieldOf e "isRedirecting") = false →
      (runHandler env (effHandlers opts).initError e JSValue.undef).2 = Except.ok ()) :
    (initializeApp (some opts) env).2 = Except.ok () ∧
    (∀ e, (bodyOf opts env).2 = Except.error e →
      truthy (fieldOf e "isRedirecting") = false →
      APP_INIT_ERROR ∈ publishedTopics (initializeApp (some opts) env).1) := by
  rcases hb : (bodyOf opts env).2 with e | u
  case ok =>
    cases u
    constructor
    · rw [initApp_ok opts env hb]
    · intro e he
      exact Except.noConfusion he
  case error =>
    have hnn : isNullish e = false := h1 e hb
    have hmemG : ∀ e2 : JSValue,
        (Except.error e : Except JSValue Unit) = Except.error e2 → e2 = e := by
      intro e2 he2
      injection he2 with h3
      exact h3.symm
    cases hmark : truthy (fieldOf e "isRedirecting") with
    | true =>
      constructor
      · rw [initApp_redirect opts env e hb hnn hmark]
      · intro e2 he2 hmark2
        rw [hmemG e2 he2] at hmark2
        rw [hmark] at hmark2
        exact Bool.noConfusion hmark2
    | false =>
      have hok := h2 e hb hmark
      rcases hrun : runHandler env (effHandlers opts).initError e JSValue.undef with ⟨ievs, ir⟩
      rw [hrun] at hok
      cases ir with
      | error e2 => exact Except.noConfusion hok
      | ok u =>
        cases u
        have hshape := initApp_plain_ok opts env e ievs hb hnn hmark hrun
        constructor
        · rw [hshape]
        · intro e2 he2 hmark2
          rw [hshape]
          refine (mem_publishedTopics _ _).mpr ⟨some e, ?_⟩
          refine List.mem_append.mpr (Or.inr ?_)
          refine List.mem_cons_of_mem _ ?_
          refine List.mem_append.mpr (Or.inr ?_)
          exact List.mem_singleton.mpr rfl

/-- Options whose i18n override rejects with the plain value `9`. -/
def optsI18nFail : InitOptions :=
  { handlers := some { i18n := some (Handler.custom (Except.error (JSValue.num 9))) } }

/-- Witness for the amended C5: an i18n override throwing `9` with the
default error handler; `initialize` resolves and publishes the error
topic. -/
theorem spec_C5_witness :
    (initializeApp (some optsI18nFail) envOk).2 = Except.ok () ∧
    APP_INIT_ERROR ∈ publishedTopics (initializeApp (some optsI18nFail) envOk).1 := by
  have h := spec_C5_theorem optsI18nFail envOk
    (by
      intro e he
      rw [show (bodyOf optsI18nFail envOk).2 = Except.error (JSValue.num 9) from rfl] at he
      injection he with h3
      rw [← h3]
      decide)
    (by
      intro e he hm
      rw [show (bodyOf optsI18nFail envOk).2 = Except.error (JSValue.num 9) from rfl] at he
      injection he with h3
      rw [← h3]
      decide)
  exact ⟨h.1, h.2 (JSValue.num 9) (by decide) (by decide)⟩

lemma auth_trace_split (env : Env) (ru hu : JSValue) :
    (auth env ru hu).1 = authStep1Events env ru ∨
    (auth env ru hu).1 = authStep1Events env ru ++ [Event.callHydrateAuthenticatedUser] := by
  unfold auth
  rcases h1 : authStep1Result env ru with e | u
  · exact Or.inl rfl
  · cases hh : (truthy hu && !isNull env.authenticatedUser)
    · left; simp [hh]
    · right; simp [hh]

/-- C6: the default auth handler awaits "ensure authenticated" with the
current browser location when `requireUser` is truthy and "fetch
authenticated user" otherwise; when `hydrateUser` is truthy, the first
await resolved and the authenticated user is not `null`, it fires the
hydration call and still resolves; and neither the handler nor anything
observable about `initialize` depends on the outcome of the hydration
promise (so a later hydration rejection never produces
`APP.INIT_ERROR`). -/
theorem spec_C6 (env : Env) (ru hu : JSValue) :
    (truthy ru = true →
      Event.callEnsureAuthenticatedUser env.locationHref ∈ (auth env ru hu).1 ∧
      Event.callFetchAuthenticatedUser ∉ (auth env ru hu).1) ∧
    (truthy ru = false →
      Event.callFetchAuthenticatedUser ∈ (auth env ru hu).1 ∧
      (∀ u, Event.callEnsureAuthenticatedUser u ∉ (auth env ru hu).1)) ∧
    (authStep1Result env ru = Except.ok () → truthy hu = true →
      isNull env.authenticatedUser = false →
      Event.callHydrateAuthenticatedUser ∈ (auth env ru hu).1 ∧
      (auth env ru hu).2 = Except.ok ()) ∧
    (∀ r, auth { env with hydrateAuthenticatedUserResult := r } ru hu = auth env ru hu) ∧
    (∀ options r,
      initializeApp options { env with hydrateAuthenticatedUserResult := r } =
        initializeApp options env) := by
  refine ⟨?_, ?_, ?_, ?_, ?_⟩
  · intro htr
    have hS : authStep1Events env ru = [Event.callEnsureAuthenticatedUser env.locationHref] := by
      simp [authStep1Events, htr]
    rcases auth_trace_split env ru hu with h | h <;> rw [h, hS] <;> simp
  · intro htr
    have hS : authStep1Events env ru = [Event.callFetchAuthenticatedUser] := by
      simp [authStep1Events, htr]
    rcases auth_trace_split env ru hu with h | h <;> rw [h, hS] <;> simp
  · intro h1 hhu hnull
    unfold auth
    rw [h1]
    simp [hhu, hnull]
  · intro r
    rfl
  · intro options r
    rfl

/-- Witness for C6: `requireUser` and `hydrateUser` both true at an
environment with a resolved user; the ensure and hydrate calls are made,
the handler resolves, and a rejecting hydration promise changes nothing
about `initialize`. -/
theorem spec_C6_witness :
    Event.callEnsureAuthenticatedUser envOk.locationHref ∈
      (auth envOk (JSValue.bool true) (JSValue.bool true)).1 ∧
    Event.callHydrateAuthenticatedUser ∈
      (auth envOk (JSValue.bool true) (JSValue.bool true)).1 ∧
    (auth envOk (JSValue.bool true) (JSValue.bool true)).2 = Except.ok () ∧
    initializeApp (some {})
        { envOk with hydrateAuthenticatedUserResult := Except.error (JSValue.num 13) } =
      initializeApp (some {}) envOk :=
  ⟨((spec_C6 envOk (JSValue.bool true) (JSValue.bool true)).1 rfl).1,
   ((spec_C6 envOk (JSValue.bool true) (JSValue.bool true)).2.2.1 rfl rfl rfl).1,
   ((spec_C6 envOk (JSValue.bool true) (JSValue.bool true)).2.2.1 rfl rfl rfl).2,
   (spec_C6 envOk (JSValue.bool true) (JSValue.bool true)).2.2.2.2 (some {})
     (Except.error (JSValue.num 13))⟩

/-- C7: the default analytics handler makes exactly one identification
call per invocation: "identify authenticated user" with exactly the
user's identifier when a user is present and carries a (truthy) user
identifier, and "identify anonymous user" in every other case. -/
theorem spec_C7 (env : Env) :
    ((truthy env.authenticatedUser && truthy (fieldOf env.authenticatedUser "userId")) = true →
      (analytics env).1 = [Event.callIdentifyAuthenticatedUser
        (fieldOf env.authenticatedUser "userId")]) ∧
    ((truthy env.authenticatedUser && truthy (fieldOf env.authenticatedUser "userId")) = false →
      (analytics env).1 = [Event.callIdentifyAnonymousUser]) ∧
    ((analytics env).1 = [Event.callIdentifyAuthenticatedUser
        (fieldOf env.authenticatedUser "userId")] ∨
      (analytics env).1 = [Event.callIdentifyAnonymousUser]) := by
  refine ⟨fun h => by simp [analytics, h], fun h => by simp [analytics, h], ?_⟩
  cases hh : (truthy env.authenticatedUser && truthy (fieldOf env.authenticatedUser "userId"))
  · right; simp [analytics, hh]
  · left; simp [analytics, hh]

/-- Environment in which no user is authenticated. -/
def envAnon : Env := { envOk with authenticatedUser := JSValue.null }

/-- Witness for C7: a user with `userId` 42 is identified as
authenticated; with no user the anonymous call is made. -/
theorem spec_C7_witness :
    (analytics envOk).1 = [Event.callIdentifyAuthenticatedUser (JSValue.num 42)] ∧
    (analytics envAnon).1 = [Event.callIdentifyAnonymousUser] :=
  ⟨(spec_C7 envOk).1 rfl, (spec_C7 envAnon).2.1 rfl⟩

/-- Environment whose `logError` call throws the value `7`. -/
def envLogThrow : Env := { envOk with logErrorResult := Except.error (JSValue.num 7) }

/-- Counterexample to C8 as stated: when the logging call itself throws,
the default error handler does not resolve -- it rejects with the thrown
value (nothing in `initError` catches it). -/
theorem spec_C8_counterexample :
    (initError envLogThrow (JSValue.num 1)).1 = [Event.callLogError (JSValue.num 1)] ∧
    (initError envLogThrow (JSValue.num 1)).2 = Except.error (JSValue.num 7) ∧
    ¬ (initError envLogThrow (JSValue.num 1)).2 = Except.ok () := by
  decide

/-- C8 (amended): the default error handler forwards the thrown error to
the logging collaborator's error-reporting function and resolves exactly
when that call returns normally; if the logging call itself throws, the
handler rejects with that thrown value. -/
theorem spec_C8_theorem (env : Env) (e : JSValue) :
    (initError env e).1 = [Event.callLogError e] ∧
    ((initError env e).2 = Except.ok () ↔ env.logErrorResult = Except.ok ()) ∧
    (∀ v, env.logErrorResult = Except.error v → (initError env e).2 = Except.error v) :=
  ⟨rfl, Iff.rfl, fun _ h => h⟩

/-- Witness for the amended C8: with a resolving logging call the handler
resolves. -/
theorem spec_C8_witness : (initError envOk (JSValue.num 3)).2 = Except.ok () :=
  (spec_C8_theorem envOk (JSValue.num 3)).2.1.mpr rfl

lemma configureAuthE_not_mem_phaseStep (env : Env) (hh : Handler) (P : Phase)
    (a1 a2 : JSValue) (args : AuthConfigArgs) :
    Event.configureAuthE args ∉
      (runStep (Step.phase P (runHandler env hh a1 a2).1 (runHandler env hh a1 a2).2)).1 := by
  intro hmem
  rcases mem_runStep_phase _ P _ _ hmem with h1 | h1 | h1
  · exact Event.noConfusion h1
  · have := runHandler_calls env hh a1 a2 _ h1
    simp [isCallEvent] at this
  · exact Event.noConfusion h1

/-- C9: every `configureAuth` wiring call of a run passes the
configuration's `LOGIN_URL` value as `logoutUrl` -- the same value it
passes as `loginUrl` -- not a logout URL from the configuration. -/
theorem spec_C9 (opts : InitOptions) (env : Env) (args : AuthConfigArgs)
    (h : Event.configureAuthE args ∈ (initializeApp (some opts) env).1) :
    args.logoutUrl = fieldOf env.config "LOGIN_URL" ∧ args.logoutUrl = args.loginUrl := by
  obtain ⟨apx, htr, hinvapx, hpubapx, hcfgapx⟩ := initApp_trace_decomp opts env
  rw [htr] at h
  rcases List.mem_append.mp h with hmem | hmem
  · rw [bodyOf_eq_runSteps] at hmem
    obtain ⟨s, hsmem, hev⟩ := mem_runSteps _ _ hmem
    simp only [bodySteps, stepsOf, List.mem_cons, List.not_mem_nil, or_false] at hsmem
    rcases hsmem with h'|h'|h'|h'|h'|h'|h'|h'|h'|h'|h' <;> subst h'
    · exact absurd hev (configureAuthE_not_mem_phaseStep env _ _ _ _ args)
    · exact absurd hev (configureAuthE_not_mem_phaseStep env _ _ _ _ args)
    · exfalso
      have hev2 : Event.configureAuthE args ∈
          (configureLoggingStep env (opts.loggingService.getD NewRelicLoggingService)).1 := hev
      simp [configureLoggingStep] at hev2
    · exact absurd hev (configureAuthE_not_mem_phaseStep env _ _ _ _ args)
    · have hev2 : Event.configureAuthE args ∈ (configureAuthStep env).1 := hev
      unfold configureAuthStep at hev2
      cases hn : isNullish env.config <;> rw [hn] at hev2
      · simp only [Bool.false_eq_true, if_false, List.mem_singleton,
          Event.configureAuthE.injEq] at hev2
        subst hev2
        exact ⟨rfl, rfl⟩
      · simp at hev2
    · exact absurd hev (configureAuthE_not_mem_phaseStep env _ _ _ _ args)
    · exfalso
      have hev2 : Event.configureAuthE args ∈
          (configureAnalyticsStep env (opts.analyticsService.getD SegmentAnalyticsService)).1 :=
        hev
      simp [configureAnalyticsStep] at hev2
    · exact absurd hev (configureAuthE_not_mem_phaseStep env _ _ _ _ args)
    · exfalso
      have hev2 : Event.configureAuthE args ∈ (configureI18nStep env opts.messages).1 := hev
      simp [configureI18nStep] at hev2
    · exact absurd hev (configureAuthE_not_mem_phaseStep env _ _ _ _ args)
    · exact absurd hev (configureAuthE_not_mem_phaseStep env _ _ _ _ args)
  · exact absurd hmem (hcfgapx args)

/-- The auth configuration record assembled by the wiring at `envOk`:
its `logoutUrl` is the login URL, not `envOk`'s distinct logout URL. -/
def authArgsOk : AuthConfigArgs :=
  { loggingService := JSValue.str "loggingServiceInstance"
    appBaseUrl := JSValue.str "http://app"
    lmsBaseUrl := JSValue.str "http://lms"
    loginUrl := JSValue.str "http://login"
    logoutUrl := JSValue.str "http://login"
    refreshAccessTokenEndpoint := JSValue.str "http://refresh"
    accessTokenCookieName := JSValue.str "cookie"
    csrfTokenApiPath := JSValue.str "/csrf" }

/-- Witness for C9 at a default all-resolving run. -/
theorem spec_C9_witness :
    authArgsOk.logoutUrl = fieldOf envOk.config "LOGIN_URL" ∧
    authArgsOk.logoutUrl = authArgsOk.loginUrl :=
  spec_C9 {} envOk authArgsOk (by decide)
